import Mathlib

/-!
Shallow embedding of the settlement computation engine of baw_v2
(src/engine/split_rules.py, src/engine/kevin_logic.py,
src/engine/settlement.py, src/engine/compute.py).

Modelling conventions:
* Python floats are modelled as exact rationals.  All the numeric constants
  of the engine (0.75, 0.45, 100, 0.01, ...) are exactly representable, and
  every tolerance used by the specification is many orders of magnitude
  larger than double-precision noise, so the idealisation is harmless.
* Python dicts that the engine iterates over are modelled as association
  lists in insertion order; Python dict keys are unique, so theorems that
  need it carry a Nodup hypothesis on the key list.
* A value that Python reads with a possibly missing key, or that may be
  NULL coming from the database, is modelled with the Amt type below.
* Code that can raise returns Except String.
* Python truthiness is modelled where the source tests it (None, 0 and the
  empty string are falsy).
-/

deriving instance DecidableEq for Except

/-- Amt models the week_amount field of a row dict: the key can be absent,
present but null (None), or present with a numeric value. -/
inductive Amt where
  | absent : Amt
  | null : Amt
  | val : ℚ → Amt
deriving DecidableEq

/-- Row models one player dict handed to the engine (one entity's weekly
result), as produced by the SQL layer: player_id, display_name, agent,
week_amount plus the display-only status flags. -/
structure Row where
  player_id : String
  display_name : Option String
  agent : String
  week_amount : Amt
  engaged : Bool
  paid : Bool
deriving DecidableEq

instance : Inhabited Row := ⟨⟨"", none, "", Amt.val 0, false, false⟩⟩

/-- AgentStats is the part of an agent's aggregate dict that
calculate_split_percentages reads: net and num_players. -/
structure AgentStats where
  net : ℚ
  num_players : ℕ
deriving DecidableEq

instance : Inhabited AgentStats := ⟨⟨0, 0⟩⟩

/-- The key list of an agent map, in insertion order
(list(agents.keys()) in split_rules.py). -/
def agentNames (agents : List (String × AgentStats)) : List String :=
  agents.map Prod.fst

/-- The low-exposure test of split_rules.py:
num_players < 5 and abs(net) < 500. -/
def isLowExposure (d : AgentStats) : Bool :=
  decide (d.num_players < 5) && decide (|d.net| < 500)

/-- The low_exposure_agents list built by split_rules.py, in iteration
order. -/
def lowExposureAgents (agents : List (String × AgentStats)) : List String :=
  (agents.filter (fun p => isLowExposure p.2)).map Prod.fst

/-- The dominant-winner search of split_rules.py: only when
book_total > 1000, the first agent with net > 0 and
net > book_total * 0.75 (the loop breaks at the first hit). -/
def dominantWinner (agents : List (String × AgentStats)) (book_total : ℚ) :
    Option String :=
  if 1000 < book_total then
    (agents.find? (fun p =>
      decide (0 < p.2.net) && decide (book_total * (75 / 100) < p.2.net))).map Prod.fst
  else none

/-- Assignment splits[k] = v on the splits dict, as a map over the
association list (k is always an existing key at every call site). -/
def setK (l : List (String × ℚ)) (k : String) (v : ℚ) : List (String × ℚ) :=
  l.map (fun p => if p.1 = k then (k, v) else p)

/-- The combined-rule block (RULE 4) of calculate_split_percentages.
Returns some splits when the block returns, none when control falls
through to the later rules.  Python truthiness of dominant_winner and of
middle_agent (None or the empty string are falsy) is modelled explicitly. -/
def rule4Result (agents : List (String × AgentStats)) (book_total : ℚ) :
    Option (List (String × ℚ)) :=
  let names := agentNames agents
  let splits := names.map (fun n => (n, (1 : ℚ) / names.length))
  let lows := lowExposureAgents agents
  match dominantWinner agents book_total with
  | none => none
  | some w =>
    if w ≠ "" ∧ lows ≠ [] ∧ w ∉ lows then
      match names.find? (fun n => decide (n ≠ w) && decide (n ∉ lows)) with
      | none => none
      | some m =>
        if m ≠ "" ∧ lows.length = 1 then
          some (setK (setK (setK splits w (45 / 100)) m (35 / 100)) (lows.headD "") (15 / 100))
        else none
    else none

/-- calculate_split_percentages of split_rules.py.  Rules, in the source's
order: empty input gives an empty dict; any agent count other than 3 gives
the even split; otherwise the combined rule (RULE 4), the dominant-winner
rule (RULE 3), the low-exposure rule (RULE 2) and the even default are
tried in turn, first returning block wins. -/
def calculate_split_percentages (agents : List (String × AgentStats))
    (book_total : ℚ) : List (String × ℚ) :=
  let names := agentNames agents
  let num := names.length
  if num = 0 then [] else
  let splits := names.map (fun n => (n, (1 : ℚ) / num))
  if num ≠ 3 then splits else
  match rule4Result agents book_total with
  | some s => s
  | none =>
    let lows := lowExposureAgents agents
    let ruleTwoOrDefault :=
      if lows ≠ [] then
        names.map (fun n =>
          (n, if n ∈ lows then (20 : ℚ) / 100
              else (80 : ℚ) / 100 / (max (num - lows.length) 1 : ℕ)))
      else splits
    match dominantWinner agents book_total with
    | some w =>
      if w ≠ "" ∧ lows = [] then
        names.map (fun n => (n, if n = w then (40 : ℚ) / 100 else (30 : ℚ) / 100))
      else ruleTwoOrDefault
    | none => ruleTwoOrDefault

/-- calculate_final_balances of split_rules.py:
agent -> book_total * split_pct, iterating over the splits dict. -/
def calculate_final_balances (book_total : ℚ) (splits : List (String × ℚ)) :
    List (String × ℚ) :=
  splits.map (fun p => (p.1, book_total * p.2))

/-- Sum of the values of an association list (used to state the
fractions-sum properties). -/
def sumSnd (l : List (String × ℚ)) : ℚ :=
  (l.map Prod.snd).sum

-- Sanity checks against the repository's own test suite
-- (src/scripts/test_split_logic.py).
example :
    calculate_split_percentages
      [("Gabe", ⟨300, 8⟩), ("Trev", ⟨300, 7⟩), ("Orso", ⟨300, 6⟩)] 900 =
      [("Gabe", 1/3), ("Trev", 1/3), ("Orso", 1/3)] := by with_unfolding_all decide

example :
    calculate_split_percentages
      [("Gabe", ⟨600, 8⟩), ("Trev", ⟨200, 3⟩), ("Orso", ⟨100, 7⟩)] 900 =
      [("Gabe", 2/5), ("Trev", 1/5), ("Orso", 2/5)] := by with_unfolding_all decide

example :
    calculate_split_percentages
      [("Gabe", ⟨900, 8⟩), ("Trev", ⟨100, 7⟩), ("Orso", ⟨100, 6⟩)] 1100 =
      [("Gabe", 2/5), ("Trev", 3/10), ("Orso", 3/10)] := by with_unfolding_all decide

example :
    calculate_split_percentages
      [("Gabe", ⟨800, 8⟩), ("Trev", ⟨100, 7⟩), ("Orso", ⟨100, 6⟩)] 1000 =
      [("Gabe", 1/3), ("Trev", 1/3), ("Orso", 1/3)] := by with_unfolding_all decide

example :
    calculate_split_percentages
      [("Gabe", ⟨900, 8⟩), ("Trev", ⟨150, 3⟩), ("Orso", ⟨50, 7⟩)] 1100 =
      [("Gabe", 9/20), ("Trev", 3/20), ("Orso", 7/20)] := by with_unfolding_all decide

/-- Round-half-to-even of a rational to an integer, the rounding Python's
builtin round uses (the engine only ever rounds values that are already
whole cents or within half a cent of one, so the tie rule is immaterial to
every claim). -/
def rhe (x : ℚ) : ℤ :=
  let f := ⌊x⌋
  let r := x - f
  if r < 1 / 2 then f
  else if 1 / 2 < r then f + 1
  else if Even f then f else f + 1

/-- round(x, 2) of settlement.py, modelled exactly on rationals. -/
def round2 (x : ℚ) : ℚ :=
  (rhe (x * 100) : ℚ) / 100

/-- Money formatter for the explanation strings (Python f-string :.2f). -/
def fmt2 (q : ℚ) : String :=
  let c : ℤ := rhe (q * 100)
  let sign := if c < 0 then "-" else ""
  let a := c.natAbs
  sign ++ toString (a / 100) ++ "." ++ (if a % 100 < 10 then "0" else "") ++ toString (a % 100)

/-- BubbleState models the database state kevin_logic.py touches: the
result of the player_instances lookup for pyr109 (current instance id, if
any) and the kevin_balance table as a map instance id -> balance. -/
structure BubbleState where
  kevinInstance : Option ℤ
  balances : List (ℤ × ℚ)
deriving DecidableEq

/-- get_kevin_instance_id of kevin_logic.py: the current instance row's id,
or None. -/
def get_kevin_instance_id (st : BubbleState) : Option ℤ :=
  st.kevinInstance

/-- get_kevin_balance of kevin_logic.py: the stored balance for the
instance, defaulting to 0.0 when no kevin_balance row exists. -/
def get_kevin_balance (st : BubbleState) (kid : ℤ) : ℚ :=
  match st.balances.lookup kid with
  | some b => b
  | none => 0

/-- update_kevin_balance of kevin_logic.py: INSERT .. ON CONFLICT DO
UPDATE, i.e. an upsert of the balance row keyed by the instance id. -/
def update_kevin_balance (st : BubbleState) (kid : ℤ) (v : ℚ) : BubbleState :=
  if (st.balances.lookup kid).isSome then
    { st with balances := st.balances.map (fun p => if p.1 = kid then (kid, v) else p) }
  else
    { st with balances := st.balances ++ [(kid, v)] }

/-- apply_kevin_bubble_logic of kevin_logic.py.  The database cursor is
modelled by threading BubbleState; the returned state is the database
after the calls to update_kevin_balance the function itself performs.
Python truthiness of the instance id (None and 0 falsy) is modelled; the
week_amount read uses dict .get with default 0, so an absent key gives 0
while a null value makes float(None) raise.  Note text is abridged to
avoid punctuation with no bearing on any property. -/
def apply_kevin_bubble_logic (st : BubbleState) (player_rows : List Row) :
    Except String (BubbleState × List Row × String) :=
  match get_kevin_instance_id st with
  | none => .ok (st, player_rows, "")
  | some kid =>
    if kid = 0 then .ok (st, player_rows, "") else
    match player_rows.findIdx? (fun r => r.player_id = "pyr109") with
    | none => .ok (st, player_rows, "")
    | some kevin_index =>
      let kevin_row := player_rows.getD kevin_index default
      let current_balance := get_kevin_balance st kid
      match kevin_row.week_amount with
      | Amt.null => .error "TypeError: float() argument must not be NoneType"
      | wk =>
        let weekly_amount : ℚ := match wk with
          | Amt.val q => q
          | _ => 0
        let potential_balance := current_balance + weekly_amount
        if |potential_balance| < 100 then
          let st := update_kevin_balance st kid potential_balance
          let explanation :=
            ["Kevin bubble: $" ++ fmt2 weekly_amount ++ " added to balance (now $" ++
               fmt2 potential_balance ++ ")",
             "Kevin amount set to $0 for this week (bubble active)"]
          let modified_rows :=
            player_rows.set kevin_index { kevin_row with week_amount := Amt.val 0 }
          .ok (st, modified_rows, String.intercalate "\n" explanation)
        else
          let total_amount := potential_balance
          let st := update_kevin_balance st kid 0
          let explanation :=
            if current_balance ≠ 0 then
              ["Kevin bubble: $" ++ fmt2 weekly_amount ++ " this week, $" ++
                 fmt2 current_balance ++ " accumulated",
               "Total $" ++ fmt2 total_amount ++ " exceeds $100 threshold - applying full amount"]
            else
              ["Kevin bubble: $" ++ fmt2 weekly_amount ++ " exceeds $100 threshold"]
          let modified_rows :=
            player_rows.set kevin_index { kevin_row with week_amount := Amt.val total_amount }
          .ok (st, modified_rows, String.intercalate "\n" explanation)

/-- Transfer models one emitted transfer dict of settlement.py
(from, to, amount). -/
structure Transfer where
  src : String
  dst : String
  amount : ℚ
deriving DecidableEq

/-- Stable descending sort by amount (Python list.sort with
key=amount, reverse=True keeps the encounter order of ties). -/
def sortDesc (l : List (String × ℚ)) : List (String × ℚ) :=
  l.insertionSort (fun a b => b.2 ≤ a.2)

/-- The while loop of compute_transfers, with its full mutable state
(transfer list, both lists with in-place amount updates, both pointers).
The loop of the source has no bound; the fuel argument is only a
termination device: for any nonnegative tolerance each iteration advances
at least one pointer (proved below), so compute_transfers passes enough
fuel for the fuel case never to be hit. -/
def transfersLoop : ℕ → List (String × ℚ) → List (String × ℚ) → ℕ → ℕ → ℚ →
    List Transfer →
    List Transfer × List (String × ℚ) × List (String × ℚ) × ℕ × ℕ
  | 0, payers, receivers, i, j, _, transfers => (transfers, payers, receivers, i, j)
  | fuel + 1, payers, receivers, i, j, tol, transfers =>
    if i < payers.length ∧ j < receivers.length then
      let pn := (payers.getD i default).1
      let pa := (payers.getD i default).2
      let rn := (receivers.getD j default).1
      let ra := (receivers.getD j default).2
      let amt := round2 (min pa ra)
      let transfers := if tol ≤ amt then transfers ++ [⟨pn, rn, amt⟩] else transfers
      let pa2 := round2 (pa - amt)
      let ra2 := round2 (ra - amt)
      let payers := payers.set i (pn, pa2)
      let receivers := receivers.set j (rn, ra2)
      let i := if pa2 ≤ tol then i + 1 else i
      let j := if ra2 ≤ tol then j + 1 else j
      transfersLoop fuel payers receivers i j tol transfers
    else (transfers, payers, receivers, i, j)

/-- compute_transfers of settlement.py: partition the settlement values
into payers (value above tolerance) and receivers (value below minus
tolerance, stored positive), sort both descending, then run the greedy
two-pointer loop. -/
def compute_transfers (settlements : List (String × ℚ))
    (cents_tolerance : ℚ := 1 / 100) : List Transfer :=
  let payers := settlements.filter (fun p => decide (cents_tolerance < p.2))
  let receivers :=
    (settlements.filter (fun p => decide (p.2 < -cents_tolerance))).map (fun p => (p.1, -p.2))
  let payers := sortDesc payers
  let receivers := sortDesc receivers
  (transfersLoop (payers.length + receivers.length) payers receivers 0 0
    cents_tolerance []).1

/-- Sum of the amounts paid by group g in a transfer list. -/
def sumFrom (ts : List Transfer) (g : String) : ℚ :=
  ((ts.filter (fun t => t.src = g)).map Transfer.amount).sum

/-- Sum of the amounts received by group g in a transfer list. -/
def sumTo (ts : List Transfer) (g : String) : ℚ :=
  ((ts.filter (fun t => t.dst = g)).map Transfer.amount).sum

/-- Net outflow of group g: paid minus received. -/
def netFlow (ts : List Transfer) (g : String) : ℚ :=
  sumFrom ts g - sumTo ts g

-- Sanity: Scenario C of the specification.
example :
    compute_transfers [("Gabe", 460), ("Trev", -230), ("Orso", -230)] (1 / 100) =
      [⟨"Gabe", "Trev", 230⟩, ⟨"Gabe", "Orso", 230⟩] := by with_unfolding_all decide

-- Sanity: bubble deferral, previous balance 0 and weekly amount 75.
example :
    apply_kevin_bubble_logic ⟨some 1, [(1, 0)]⟩
      [{ player_id := "pyr109", display_name := some "Kevin", agent := "Gabe",
         week_amount := Amt.val 75, engaged := false, paid := false }] =
    .ok (⟨some 1, [(1, 75)]⟩,
      [{ player_id := "pyr109", display_name := some "Kevin", agent := "Gabe",
         week_amount := Amt.val 0, engaged := false, paid := false }],
      "Kevin bubble: $75.00 added to balance (now $75.00)\nKevin amount set to $0 for this week (bubble active)") := by
  with_unfolding_all decide

-- Sanity: bubble release, previous balance 70 and weekly amount 50.
example :
    (apply_kevin_bubble_logic ⟨some 1, [(1, 70)]⟩
      [{ player_id := "pyr109", display_name := some "Kevin", agent := "Gabe",
         week_amount := Amt.val 50, engaged := false, paid := false }]).map
      (fun out => (out.1.balances, (out.2.1.getD 0 default).week_amount)) =
    .ok ([(1, 0)], Amt.val 120) := by with_unfolding_all decide

/-- PlayerRec models the annotated member dict appended to an agent's
players list: a fresh copy of the row plus profit, action and abs_amount. -/
structure PlayerRec where
  row : Row
  profit : ℚ
  action : String
  abs_amount : ℚ
deriving DecidableEq

/-- AgentAgg is one agent's aggregate during the aggregation loop of
compute_dashboard: players list, net and num_players. -/
structure AgentAgg where
  players : List PlayerRec
  net : ℚ
  num_players : ℕ
deriving DecidableEq

/-- AgentFull is the agent dict after the settlement loop added
final_balance, split_percentage and settlement and sorted the players. -/
structure AgentFull where
  players : List PlayerRec
  net : ℚ
  num_players : ℕ
  final_balance : ℚ
  split_percentage : ℚ
  settlement : ℚ
deriving DecidableEq

/-- SplitInfo is the split_info dict of compute_dashboard. -/
structure SplitInfo where
  explanation : String
  kevin_bubble : String
  splits : List (String × ℚ)
deriving DecidableEq

/-- DashResult is the 5-tuple compute_dashboard returns (minus the
threaded database state, which the embedding returns alongside it). -/
structure DashResult where
  agents : List (String × AgentFull)
  book_total : ℚ
  avg_final_balance : ℚ
  transfers : List Transfer
  split_info : SplitInfo
deriving DecidableEq

/-- The CORE_AGENTS set compute_dashboard defines with the comment
"Filter out Dro (4th agent) - only process the 3 core agents".  The
source never uses it: no row is filtered by it anywhere. -/
def CORE_AGENTS : List String := ["Gabe", "Trev", "Orso"]

/-- The week-amount read of the aggregation loop:
float(r["week_amount"] or 0.0).  An absent key raises KeyError; a null
value is falsy and defaults to 0.0 (as does 0.0 itself). -/
def rowWeekAmt (r : Row) : Except String ℚ :=
  match r.week_amount with
  | Amt.absent => .error "KeyError: week_amount"
  | Amt.null => .ok 0
  | Amt.val q => .ok q

/-- agents.setdefault(agent, ...) followed by the in-place updates of
net, num_players and the players list in compute_dashboard. -/
def addRowToAgents (agents : List (String × AgentAgg)) (agent : String)
    (prec : PlayerRec) (agent_net : ℚ) : List (String × AgentAgg) :=
  if (agents.lookup agent).isSome then
    agents.map (fun p =>
      if p.1 = agent then
        (agent, { players := p.2.players ++ [prec], net := p.2.net + agent_net,
                  num_players := p.2.num_players + 1 })
      else p)
  else
    agents ++ [(agent, { players := [prec], net := agent_net, num_players := 1 })]

/-- The aggregation loop of compute_dashboard over the (possibly
bubble-adjusted) rows: negate the week amount into the agent perspective,
accumulate book_total and the per-agent aggregates, and append the
annotated fresh copy of the row. -/
def aggRows : List Row → List (String × AgentAgg) → ℚ →
    Except String (List (String × AgentAgg) × ℚ)
  | [], agents, book_total => .ok (agents, book_total)
  | r :: rest, agents, book_total => do
    let week_amt ← rowWeekAmt r
    let agent_net := -week_amt
    let action := if 0 < agent_net then "Request" else "Pay"
    let abs_amt := |agent_net|
    let prec : PlayerRec := ⟨r, agent_net, action, abs_amt⟩
    aggRows rest (addRowToAgents agents r.agent prec agent_net) (book_total + agent_net)

/-- The action_order dict used by the player sort; inside
compute_dashboard the action label is always Pay or Request. -/
def actionOrder (s : String) : ℕ :=
  if s = "Pay" then 0 else 1

/-- The player sort key: (action rank, display name lowercased), with
a missing or falsy display name read as the empty string. -/
def playerKeyLE (p q : PlayerRec) : Prop :=
  actionOrder p.action < actionOrder q.action ∨
    (actionOrder p.action = actionOrder q.action ∧
      (p.row.display_name.getD "").toLower ≤ (q.row.display_name.getD "").toLower)

instance : DecidableRel playerKeyLE := by
  intro p q
  unfold playerKeyLE
  infer_instance

/-- players.sort(key=...) of compute_dashboard: a stable ascending sort
by the (action rank, lowercased name) key. -/
def sortPlayers (l : List PlayerRec) : List PlayerRec :=
  l.insertionSort playerKeyLE

/-- format_split_explanation of split_rules.py.  It derives the one-line
explanation from the shape of the splits dict alone; the list indexings
[0] raise IndexError on an empty candidate list, which only the 0.45
branch can actually reach (when 0.45 is present without 0.15), so the
function returns Except.  Note text is abridged to plain punctuation. -/
def format_split_explanation (agents : List (String × AgentStats))
    (splits : List (String × ℚ)) (book_total : ℚ) : Except String String :=
  let _ := agents
  let _ := book_total
  let split_values := ((splits.map Prod.snd).dedup).insertionSort (fun a b => b ≤ a)
  if split_values.length = 1 then
    .ok "Standard splits this week"
  else if (45 : ℚ) / 100 ∈ split_values then
    match (splits.filter (fun p => decide (p.2 = 45 / 100))).map Prod.fst,
          (splits.filter (fun p => decide (p.2 = 15 / 100))).map Prod.fst with
    | winner :: _, low :: _ =>
      .ok (winner ++ " had a great week, " ++ low ++ " did not have enough volume")
    | _, _ => .error "IndexError: list index out of range"
  else if (20 : ℚ) / 100 ∈ split_values then
    match (splits.filter (fun p => decide (p.2 = 20 / 100))).map Prod.fst with
    | low_agent :: _ => .ok (low_agent ++ " did not have enough players or volume")
    | _ => .error "IndexError: list index out of range"
  else if (40 : ℚ) / 100 ∈ split_values ∧ (30 : ℚ) / 100 ∈ split_values then
    match (splits.filter (fun p => decide (p.2 = 40 / 100))).map Prod.fst with
    | winner :: _ => .ok (winner ++ " had a great week")
    | _ => .error "IndexError: list index out of range"
  else
    .ok "Standard splits this week"

/-- Lookup with default (dict .get(key, default)). -/
def lookupD (l : List (String × ℚ)) (k : String) (d : ℚ) : ℚ :=
  (l.lookup k).getD d

/-- compute_dashboard of compute.py.  The optional database connection is
modelled as an optional BubbleState threaded through the Kevin step (the
source performs the balance write through the cursor inside that step).
The split evaluator reads only net and num_players from each agent dict,
so the embedding passes it that projection; compute_transfers reads only
the settlement entry, so the embedding passes the settlement list. -/
def computeDashboard (rows : List Row) (conn : Option BubbleState) :
    Except String (Option BubbleState × DashResult) := do
  let kcr ← match conn with
    | none => Except.ok ((none : Option BubbleState), rows, "")
    | some st => do
      let out ← apply_kevin_bubble_logic st rows
      Except.ok (some out.1, out.2.1, out.2.2)
  let conn2 := kcr.1
  let rows2 := kcr.2.1
  let kevin_explanation := kcr.2.2
  let agg ← aggRows rows2 [] 0
  let agents := agg.1
  let book_total := agg.2
  let stats := agents.map (fun p => (p.1, AgentStats.mk p.2.net p.2.num_players))
  let splits := calculate_split_percentages stats book_total
  let final_balances := calculate_final_balances book_total splits
  let split_explanation ← format_split_explanation stats splits book_total
  let agentsFull : List (String × AgentFull) := agents.map (fun p =>
    (p.1, { players := sortPlayers p.2.players, net := p.2.net,
            num_players := p.2.num_players,
            final_balance := lookupD final_balances p.1 0,
            split_percentage := lookupD splits p.1 0,
            settlement := p.2.net - lookupD final_balances p.1 0 }))
  let transfers := compute_transfers (agentsFull.map (fun p => (p.1, p.2.settlement))) (1 / 100)
  let avg_final_balance :=
    if final_balances ≠ [] then sumSnd final_balances / (max final_balances.length 1 : ℕ)
    else 0
  Except.ok (conn2, { agents := agentsFull, book_total := book_total,
                      avg_final_balance := avg_final_balance, transfers := transfers,
                      split_info := ⟨split_explanation, kevin_explanation, splits⟩ })

-- Sanity: an even-split week through the whole dashboard (each agent has
-- five players so no special rule fires; book total 900, zero transfers).
set_option maxRecDepth 100000 in
example :
    (computeDashboard
      ((List.range 5).map (fun k =>
          ⟨"g" ++ toString k, some "A", "Gabe", Amt.val (-60), false, false⟩) ++
       (List.range 5).map (fun k =>
          ⟨"t" ++ toString k, some "B", "Trev", Amt.val (-60), false, false⟩) ++
       (List.range 5).map (fun k =>
          ⟨"o" ++ toString k, some "C", "Orso", Amt.val (-60), false, false⟩)) none).map
      (fun out => (out.2.book_total, out.2.avg_final_balance, out.2.transfers,
        out.2.agents.map (fun p => (p.1, p.2.settlement)))) =
    .ok (900, 300, [], [("Gabe", 0), ("Trev", 0), ("Orso", 0)]) := by
  with_unfolding_all decide

-- Sanity: Scenario C of the specification (dominant winner, two transfers).
set_option maxRecDepth 100000 in
example :
    (computeDashboard
      ((List.range 5).map (fun k =>
          ⟨"g" ++ toString k, some "A", "Gabe", Amt.val (-180), false, false⟩) ++
       (List.range 5).map (fun k =>
          ⟨"t" ++ toString k, some "B", "Trev", Amt.val (-20), false, false⟩) ++
       (List.range 5).map (fun k =>
          ⟨"o" ++ toString k, some "C", "Orso", Amt.val (-20), false, false⟩)) none).map
      (fun out => (out.2.transfers,
        out.2.agents.map (fun p => (p.1, p.2.split_percentage)))) =
    .ok ([⟨"Gabe", "Trev", 230⟩, ⟨"Gabe", "Orso", 230⟩],
      [("Gabe", 2/5), ("Trev", 3/10), ("Orso", 3/10)]) := by
  with_unfolding_all decide

/-- PyDict models one heap-allocated Python dict flowing through
compute_dashboard: a row dict, possibly extended with the annotation keys
(profit, action, abs_amount) that the aggregation loop adds to its fresh
copies.  This object-identity model exists to settle the frame claims:
the heap is a list of objects, an address is an index into it, and
allocation appends; the embedded code has exactly the allocations and
reads the source performs, and any in-place write to an existing dict
would have to show up here as an update of an existing index. -/
structure PyDict where
  player_id : String
  display_name : Option String
  agent : String
  week_amount : Amt
  profit : Option ℚ := none
  action : Option String := none
  abs_amount : Option ℚ := none
deriving DecidableEq

instance : Inhabited PyDict :=
  ⟨{ player_id := "", display_name := none, agent := "", week_amount := Amt.val 0 }⟩

/-- The heap of dict objects; addresses are indices. -/
abbrev Heap := List PyDict

/-- Dereference an address (callers only use valid addresses). -/
def readObj (h : Heap) (a : ℕ) : PyDict :=
  h.getD a default

/-- Allocate a fresh dict, returning the new heap and its address. -/
def allocObj (h : Heap) (o : PyDict) : Heap × ℕ :=
  (h ++ [o], h.length)

/-- apply_kevin_bubble_logic over the heap model: identical logic to
apply_kevin_bubble_logic, but the row list is a list of addresses and the
dict copy made for Kevin ({**kevin_row, week_amount: ...}) is a fresh
allocation, exactly as in the source; player_rows.copy() becomes the new
address list with one entry replaced. -/
def applyKevinBubbleH (st : BubbleState) (h : Heap) (addrs : List ℕ) :
    Except String (BubbleState × Heap × List ℕ × String) :=
  match get_kevin_instance_id st with
  | none => .ok (st, h, addrs, "")
  | some kid =>
    if kid = 0 then .ok (st, h, addrs, "") else
    match addrs.findIdx? (fun a => (readObj h a).player_id = "pyr109") with
    | none => .ok (st, h, addrs, "")
    | some kevin_index =>
      let ka := addrs.getD kevin_index 0
      let kevin_row := readObj h ka
      let current_balance := get_kevin_balance st kid
      match kevin_row.week_amount with
      | Amt.null => .error "TypeError: float() argument must not be NoneType"
      | wk =>
        let weekly_amount : ℚ := match wk with
          | Amt.val q => q
          | _ => 0
        let potential_balance := current_balance + weekly_amount
        if |potential_balance| < 100 then
          let st := update_kevin_balance st kid potential_balance
          let ha := allocObj h { kevin_row with week_amount := Amt.val 0 }
          let note :=
            String.intercalate "\n"
              ["Kevin bubble: $" ++ fmt2 weekly_amount ++ " added to balance (now $" ++
                 fmt2 potential_balance ++ ")",
               "Kevin amount set to $0 for this week (bubble active)"]
          .ok (st, ha.1, addrs.set kevin_index ha.2, note)
        else
          let total_amount := potential_balance
          let st := update_kevin_balance st kid 0
          let ha := allocObj h { kevin_row with week_amount := Amt.val total_amount }
          let note :=
            String.intercalate "\n"
              (if current_balance ≠ 0 then
                ["Kevin bubble: $" ++ fmt2 weekly_amount ++ " this week, $" ++
                   fmt2 current_balance ++ " accumulated",
                 "Total $" ++ fmt2 total_amount ++ " exceeds $100 threshold - applying full amount"]
              else
                ["Kevin bubble: $" ++ fmt2 weekly_amount ++ " exceeds $100 threshold"])
          .ok (st, ha.1, addrs.set kevin_index ha.2, note)

/-- One agent's aggregate in the heap model: the players list holds the
addresses of the freshly allocated annotated dicts. -/
structure AgentAggH where
  players : List ℕ
  net : ℚ
  num_players : ℕ
deriving DecidableEq

/-- The week-amount read in the heap model (same as rowWeekAmt). -/
def rowWeekAmtH (r : PyDict) : Except String ℚ :=
  match r.week_amount with
  | Amt.absent => .error "KeyError: week_amount"
  | Amt.null => .ok 0
  | Amt.val q => .ok q

/-- setdefault plus the in-place aggregate updates, heap-model version. -/
def addRowToAgentsH (agents : List (String × AgentAggH)) (agent : String)
    (pa : ℕ) (agent_net : ℚ) : List (String × AgentAggH) :=
  if (agents.lookup agent).isSome then
    agents.map (fun p =>
      if p.1 = agent then
        (agent, { players := p.2.players ++ [pa], net := p.2.net + agent_net,
                  num_players := p.2.num_players + 1 })
      else p)
  else
    agents ++ [(agent, { players := [pa], net := agent_net, num_players := 1 })]

/-- The aggregation loop over addresses: each iteration reads the row
dict and allocates the annotated copy {**r, profit, action, abs_amount}. -/
def aggRowsH : List ℕ → Heap → List (String × AgentAggH) → ℚ →
    Except String (Heap × List (String × AgentAggH) × ℚ)
  | [], h, agents, book_total => .ok (h, agents, book_total)
  | a :: rest, h, agents, book_total => do
    let r := readObj h a
    let week_amt ← rowWeekAmtH r
    let agent_net := -week_amt
    let action := if 0 < agent_net then "Request" else "Pay"
    let ha := allocObj h
      { r with profit := some agent_net, action := some action,
               abs_amount := some |agent_net| }
    aggRowsH rest ha.1 (addRowToAgentsH agents r.agent ha.2 agent_net)
      (book_total + agent_net)

/-- The player sort key in the heap model (the action annotation is set
on every allocated player record). -/
def playerKeyLEH (h : Heap) (a b : ℕ) : Prop :=
  actionOrder ((readObj h a).action.getD "") < actionOrder ((readObj h b).action.getD "") ∨
    (actionOrder ((readObj h a).action.getD "") = actionOrder ((readObj h b).action.getD "") ∧
      ((readObj h a).display_name.getD "").toLower ≤ ((readObj h b).display_name.getD "").toLower)

instance (h : Heap) : DecidableRel (playerKeyLEH h) := by
  intro a b
  unfold playerKeyLEH
  infer_instance

/-- players.sort in the heap model: sorts the address list in place by
the keys read from the heap (a Python sort permutes the list contents,
it allocates and mutates no dict). -/
def sortPlayersH (h : Heap) (l : List ℕ) : List ℕ :=
  l.insertionSort (playerKeyLEH h)

/-- Agent dict after the settlement loop, heap model. -/
structure AgentFullH where
  players : List ℕ
  net : ℚ
  num_players : ℕ
  final_balance : ℚ
  split_percentage : ℚ
  settlement : ℚ
deriving DecidableEq

/-- compute_dashboard result in the heap model. -/
structure DashResultH where
  agents : List (String × AgentFullH)
  book_total : ℚ
  avg_final_balance : ℚ
  transfers : List Transfer
  split_info : SplitInfo
deriving DecidableEq

/-- compute_dashboard over the heap model: the same pipeline as
computeDashboard, with rows passed by reference so that object identity
and freshness are visible. -/
def computeDashboardH (h : Heap) (addrs : List ℕ) (conn : Option BubbleState) :
    Except String (Heap × Option BubbleState × DashResultH) := do
  let kcr ← match conn with
    | none => Except.ok ((none : Option BubbleState), h, addrs, "")
    | some st => do
      let out ← applyKevinBubbleH st h addrs
      Except.ok (some out.1, out.2.1, out.2.2.1, out.2.2.2)
  let conn2 := kcr.1
  let h2 := kcr.2.1
  let addrs2 := kcr.2.2.1
  let kevin_explanation := kcr.2.2.2
  let agg ← aggRowsH addrs2 h2 [] 0
  let h3 := agg.1
  let agents := agg.2.1
  let book_total := agg.2.2
  let stats := agents.map (fun p => (p.1, AgentStats.mk p.2.net p.2.num_players))
  let splits := calculate_split_percentages stats book_total
  let final_balances := calculate_final_balances book_total splits
  let split_explanation ← format_split_explanation stats splits book_total
  let agentsFull : List (String × AgentFullH) := agents.map (fun p =>
    (p.1, { players := sortPlayersH h3 p.2.players, net := p.2.net,
            num_players := p.2.num_players,
            final_balance := lookupD final_balances p.1 0,
            split_percentage := lookupD splits p.1 0,
            settlement := p.2.net - lookupD final_balances p.1 0 }))
  let transfers := compute_transfers (agentsFull.map (fun p => (p.1, p.2.settlement))) (1 / 100)
  let avg_final_balance :=
    if final_balances ≠ [] then sumSnd final_balances / (max final_balances.length 1 : ℕ)
    else 0
  Except.ok (h3, conn2, { agents := agentsFull, book_total := book_total,
                          avg_final_balance := avg_final_balance, transfers := transfers,
                          split_info := ⟨split_explanation, kevin_explanation, splits⟩ })

/-!
Theorems.  Each claim of the specification review is settled below; the
helper lemmas come first, then one theorem per claim (with witness or
counterexample theorems where applicable).
-/

/-- Claim C1, counterexample.  With three groups that are all
low-exposure (fewer than 5 players and small absolute net), the
low-exposure rule assigns each of them 0.20 and there is no remaining
group, so the fractions sum to 0.6: they do not sum to 1.0 within 1e-9.
The claim as stated is therefore false. -/
theorem c1_counterexample :
    sumSnd (calculate_split_percentages
      [("A", ⟨0, 0⟩), ("B", ⟨0, 0⟩), ("C", ⟨0, 0⟩)] 0) = 3 / 5 ∧
    ¬ (|sumSnd (calculate_split_percentages
      [("A", ⟨0, 0⟩), ("B", ⟨0, 0⟩), ("C", ⟨0, 0⟩)] 0) - 1| ≤ 1 / 1000000000) := by
  with_unfolding_all decide

/-- Claim C5, counterexample.  With a dominant winner (net 2000 out of a
2000 book total, above 75 percent and above 1000) and two low-exposure
groups, the combined rule's conditions fail (no middle agent, two low
groups), the dominant-only rule requires zero low-exposure groups, and
control falls through to the low-exposure rule: W gets 0.80 and each low
group 0.20 even though a dominant winner exists.  The low-exposure-only
split is therefore not applied only when no dominant winner exists. -/
theorem c5_counterexample :
    calculate_split_percentages
      [("W", ⟨2000, 10⟩), ("A", ⟨0, 1⟩), ("B", ⟨0, 1⟩)] 2000 =
      [("W", 4 / 5), ("A", 1 / 5), ("B", 1 / 5)] ∧
    dominantWinner [("W", ⟨2000, 10⟩), ("A", ⟨0, 1⟩), ("B", ⟨0, 1⟩)] 2000 = some "W" ∧
    lowExposureAgents [("W", ⟨2000, 10⟩), ("A", ⟨0, 1⟩), ("B", ⟨0, 1⟩)] = ["A", "B"] := by
  with_unfolding_all decide

/-- Claim C3, counterexample.  The adjuster itself mutates the external
balance store: on a deferral (balance 0, weekly 75) the returned database
state has the balance row updated to 75, so the store does not stay
unchanged. -/
theorem c3_counterexample :
    (apply_kevin_bubble_logic ⟨some 1, [(1, 0)]⟩
        [⟨"pyr109", some "Kevin", "Gabe", Amt.val 75, false, false⟩]).map
      (fun out => out.1) =
      .ok ⟨some 1, [(1, 75)]⟩ ∧
    (⟨some 1, [(1, 0)]⟩ : BubbleState) ≠ ⟨some 1, [(1, 75)]⟩ := by
  with_unfolding_all decide

/-- Claim C7, counterexample.  With a current instance id but no
kevin_balance row, the adjuster is not a no-op: get_kevin_balance
defaults the missing entry to 0.0 and the bubble logic runs, zeroing the
row, writing balance 50 and returning a non-empty note. -/
theorem c7_counterexample :
    (apply_kevin_bubble_logic ⟨some 1, []⟩
        [⟨"pyr109", some "Kevin", "Gabe", Amt.val 50, false, false⟩]).map
      (fun out => (out.1.balances, (out.2.1.getD 0 default).week_amount, out.2.2.isEmpty)) =
      .ok ([(1, 50)], Amt.val 0, false) := by
  with_unfolding_all decide

/-- Claim C8, counterexample.  A row whose amount key is absent does not
default to zero in the aggregation: r["week_amount"] raises KeyError, so
the computation fails rather than completing. -/
theorem c8_counterexample :
    computeDashboard [⟨"p1", some "A", "Gabe", Amt.absent, false, false⟩] none =
      .error "KeyError: week_amount" := by
  with_unfolding_all decide

/-- Claim C6, counterexample.  Payers A and B each owe 0.03, receivers
C, D, E are each owed 0.02 (deltas sum to zero).  Each payer is advanced
with a 0.01 remainder after one transfer, so E receives nothing: its net
flow is 0 while its settlement delta is -0.02, off by 0.02, which is more
than the 0.01 tolerance. -/
theorem c6_counterexample :
    compute_transfers
      [("A", 3 / 100), ("B", 3 / 100), ("C", -2 / 100), ("D", -2 / 100), ("E", -2 / 100)]
      (1 / 100) =
      [⟨"A", "C", 2 / 100⟩, ⟨"B", "D", 2 / 100⟩] ∧
    ¬ (|netFlow (compute_transfers
      [("A", 3 / 100), ("B", 3 / 100), ("C", -2 / 100), ("D", -2 / 100), ("E", -2 / 100)]
      (1 / 100)) "E" - (-2 / 100)| ≤ 1 / 100) := by
  with_unfolding_all decide

/-- Claim C2 (code bug), evaluation at the failing input.  A single row
for the excluded group Dro is not ignored by the aggregation: it creates
a Dro aggregate and its negated amount becomes the book total, although
the source's own comment says to filter out Dro and only process the
three core agents of CORE_AGENTS (the set is defined and never used). -/
theorem c2_dro_row_aggregated :
    (computeDashboard [⟨"d1", some "D", "Dro", Amt.val (-50), false, false⟩] none).map
      (fun out => (out.2.book_total, out.2.agents.map Prod.fst)) =
      .ok (50, ["Dro"]) ∧ "Dro" ∉ CORE_AGENTS := by
  with_unfolding_all decide

theorem lookup_setBal_self (l : List (ℤ × ℚ)) (kid : ℤ) (v : ℚ)
    (h : (l.lookup kid).isSome = true) :
    (l.map (fun p => if p.1 = kid then (kid, v) else p)).lookup kid = some v := by
  induction l with
  | nil => simp at h
  | cons p t ih =>
    obtain ⟨k1, v1⟩ := p
    by_cases hk : k1 = kid
    · subst hk
      simp [List.lookup_cons]
    · have h' : (t.lookup kid).isSome = true := by
        have : (kid == k1) = false := by
          simp only [beq_eq_false_iff_ne, ne_eq]
          exact fun he => hk he.symm
        simpa [List.lookup_cons, this] using h
      have hne : (kid == k1) = false := by
        simp only [beq_eq_false_iff_ne, ne_eq]
        exact fun he => hk he.symm
      simp only [List.map_cons, if_neg (by simpa using hk)]
      rw [List.lookup_cons]
      simp only [hne]
      exact ih h'

theorem lookup_setBal_ne (l : List (ℤ × ℚ)) (kid k : ℤ) (v : ℚ) (h : k ≠ kid) :
    (l.map (fun p => if p.1 = kid then (kid, v) else p)).lookup k = l.lookup k := by
  induction l with
  | nil => simp
  | cons p t ih =>
    obtain ⟨k1, v1⟩ := p
    by_cases hk : k1 = kid
    · subst hk
      have hne : (k == k1) = false := by simpa [beq_eq_false_iff_ne] using h
      simp only [List.map_cons, if_true, eq_self_iff_true]
      rw [List.lookup_cons, List.lookup_cons]
      simp only [hne]
      exact ih
    · simp only [List.map_cons, if_neg (by simpa using hk)]
      rw [List.lookup_cons, List.lookup_cons]
      cases hkk : (k == k1) with
      | true => rfl
      | false => exact ih

theorem lookup_append_balances (l : List (ℤ × ℚ)) (kid : ℤ) (v : ℚ)
    (h : l.lookup kid = none) :
    (l ++ [(kid, v)]).lookup kid = some v := by
  induction l with
  | nil => simp
  | cons p t ih =>
    obtain ⟨k1, v1⟩ := p
    rw [List.cons_append, List.lookup_cons]
    rw [List.lookup_cons] at h
    cases hkk : (kid == k1) with
    | true => simp [hkk] at h
    | false =>
      simp only [hkk] at h ⊢
      exact ih h

theorem lookup_append_balances_ne (l : List (ℤ × ℚ)) (kid k : ℤ) (v : ℚ) (h : k ≠ kid) :
    (l ++ [(kid, v)]).lookup k = l.lookup k := by
  induction l with
  | nil =>
    have hne : (k == kid) = false := by simpa [beq_eq_false_iff_ne] using h
    simp [List.lookup_cons, hne]
  | cons p t ih =>
    obtain ⟨k1, v1⟩ := p
    rw [List.cons_append, List.lookup_cons, List.lookup_cons]
    cases hkk : (k == k1) with
    | true => rfl
    | false => exact ih

/-- After update_kevin_balance the updated instance reads the written
value. -/
theorem get_kevin_balance_update_self (st : BubbleState) (kid : ℤ) (v : ℚ) :
    get_kevin_balance (update_kevin_balance st kid v) kid = v := by
  unfold get_kevin_balance update_kevin_balance
  cases hh : st.balances.lookup kid with
  | some b =>
    have hs : (st.balances.lookup kid).isSome = true := by simp [hh]
    simp only [hh, Option.isSome_some, if_true]
    rw [lookup_setBal_self st.balances kid v hs]
  | none =>
    simp only [hh, Option.isSome_none, Bool.false_eq_true, if_false]
    rw [lookup_append_balances st.balances kid v hh]

/-- update_kevin_balance touches no other key of the balance store. -/
theorem lookup_update_kevin_balance_ne (st : BubbleState) (kid k : ℤ) (v : ℚ)
    (h : k ≠ kid) :
    (update_kevin_balance st kid v).balances.lookup k = st.balances.lookup k := by
  unfold update_kevin_balance
  by_cases hs : (st.balances.lookup kid).isSome = true
  · simp only [hs, if_true]
    exact lookup_setBal_ne st.balances kid k v h
  · simp only [Bool.not_eq_true] at hs
    simp only [hs, Bool.false_eq_true, if_false]
    exact lookup_append_balances_ne st.balances kid k v h

/-- The deferral note string, as built by the source. -/
def deferNote (weekly potential : ℚ) : String :=
  String.intercalate "\n"
    ["Kevin bubble: $" ++ fmt2 weekly ++ " added to balance (now $" ++ fmt2 potential ++ ")",
     "Kevin amount set to $0 for this week (bubble active)"]

/-- The release note string, as built by the source. -/
def releaseNote (weekly balance total : ℚ) : String :=
  String.intercalate "\n"
    (if balance ≠ 0 then
      ["Kevin bubble: $" ++ fmt2 weekly ++ " this week, $" ++ fmt2 balance ++ " accumulated",
       "Total $" ++ fmt2 total ++ " exceeds $100 threshold - applying full amount"]
    else
      ["Kevin bubble: $" ++ fmt2 weekly ++ " exceeds $100 threshold"])

theorem kevin_noop_none (st : BubbleState) (rows : List Row)
    (h : st.kevinInstance = none) :
    apply_kevin_bubble_logic st rows = .ok (st, rows, "") := by
  simp only [apply_kevin_bubble_logic, get_kevin_instance_id, h]

theorem kevin_noop_zero (st : BubbleState) (rows : List Row)
    (h : st.kevinInstance = some 0) :
    apply_kevin_bubble_logic st rows = .ok (st, rows, "") := by
  simp only [apply_kevin_bubble_logic, get_kevin_instance_id, h, if_true, eq_self_iff_true]

theorem kevin_noop_absent (st : BubbleState) (rows : List Row) (kid : ℤ)
    (h1 : st.kevinInstance = some kid) (h2 : kid ≠ 0)
    (h3 : rows.findIdx? (fun r => r.player_id = "pyr109") = none) :
    apply_kevin_bubble_logic st rows = .ok (st, rows, "") := by
  simp only [apply_kevin_bubble_logic, get_kevin_instance_id, h1, if_neg h2, h3]

theorem kevin_null_error (st : BubbleState) (rows : List Row) (kid : ℤ) (idx : ℕ)
    (h1 : st.kevinInstance = some kid) (h2 : kid ≠ 0)
    (h3 : rows.findIdx? (fun r => r.player_id = "pyr109") = some idx)
    (h4 : (rows.getD idx default).week_amount = Amt.null) :
    apply_kevin_bubble_logic st rows =
      .error "TypeError: float() argument must not be NoneType" := by
  simp only [apply_kevin_bubble_logic, get_kevin_instance_id, h1, if_neg h2, h3, h4]

theorem kevin_defer_eq (st : BubbleState) (rows : List Row) (kid : ℤ) (idx : ℕ) (w : ℚ)
    (h1 : st.kevinInstance = some kid) (h2 : kid ≠ 0)
    (h3 : rows.findIdx? (fun r => r.player_id = "pyr109") = some idx)
    (h4 : (rows.getD idx default).week_amount = Amt.val w)
    (hp : |get_kevin_balance st kid + w| < 100) :
    apply_kevin_bubble_logic st rows =
      .ok (update_kevin_balance st kid (get_kevin_balance st kid + w),
        rows.set idx { rows.getD idx default with week_amount := Amt.val 0 },
        deferNote w (get_kevin_balance st kid + w)) := by
  simp only [apply_kevin_bubble_logic, get_kevin_instance_id, h1, if_neg h2, h3, h4,
    if_pos hp, deferNote]

theorem kevin_release_eq (st : BubbleState) (rows : List Row) (kid : ℤ) (idx : ℕ) (w : ℚ)
    (h1 : st.kevinInstance = some kid) (h2 : kid ≠ 0)
    (h3 : rows.findIdx? (fun r => r.player_id = "pyr109") = some idx)
    (h4 : (rows.getD idx default).week_amount = Amt.val w)
    (hp : ¬ |get_kevin_balance st kid + w| < 100) :
    apply_kevin_bubble_logic st rows =
      .ok (update_kevin_balance st kid 0,
        rows.set idx { rows.getD idx default with
          week_amount := Amt.val (get_kevin_balance st kid + w) },
        releaseNote w (get_kevin_balance st kid) (get_kevin_balance st kid + w)) := by
  simp only [apply_kevin_bubble_logic, get_kevin_instance_id, h1, if_neg h2, h3, h4,
    if_neg hp, releaseNote]

theorem kevin_defer_absent_eq (st : BubbleState) (rows : List Row) (kid : ℤ) (idx : ℕ)
    (h1 : st.kevinInstance = some kid) (h2 : kid ≠ 0)
    (h3 : rows.findIdx? (fun r => r.player_id = "pyr109") = some idx)
    (h4 : (rows.getD idx default).week_amount = Amt.absent)
    (hp : |get_kevin_balance st kid + 0| < 100) :
    apply_kevin_bubble_logic st rows =
      .ok (update_kevin_balance st kid (get_kevin_balance st kid + 0),
        rows.set idx { rows.getD idx default with week_amount := Amt.val 0 },
        deferNote 0 (get_kevin_balance st kid + 0)) := by
  simp only [apply_kevin_bubble_logic, get_kevin_instance_id, h1, if_neg h2, h3, h4,
    if_pos hp, deferNote]

theorem kevin_release_absent_eq (st : BubbleState) (rows : List Row) (kid : ℤ) (idx : ℕ)
    (h1 : st.kevinInstance = some kid) (h2 : kid ≠ 0)
    (h3 : rows.findIdx? (fun r => r.player_id = "pyr109") = some idx)
    (h4 : (rows.getD idx default).week_amount = Amt.absent)
    (hp : ¬ |get_kevin_balance st kid + 0| < 100) :
    apply_kevin_bubble_logic st rows =
      .ok (update_kevin_balance st kid 0,
        rows.set idx { rows.getD idx default with
          week_amount := Amt.val (get_kevin_balance st kid + 0) },
        releaseNote 0 (get_kevin_balance st kid) (get_kevin_balance st kid + 0)) := by
  simp only [apply_kevin_bubble_logic, get_kevin_instance_id, h1, if_neg h2, h3, h4,
    if_neg hp, releaseNote]

/-- Claim C4, confirmed.  For previous balance b (the stored balance read
for the designated entity's instance) and weekly amount w with potential
p = b + w: if the absolute potential is below 100 the adjuster replaces
the entity's row amount with 0 and the balance after the call is p;
otherwise it replaces the row amount with the full accumulated total p
and the balance after the call is 0 (the source writes the new balance
itself; the reported values are exactly these). -/
theorem c4_bubble_threshold (st : BubbleState) (rows : List Row) (kid : ℤ)
    (idx : ℕ) (w : ℚ)
    (h1 : st.kevinInstance = some kid) (h2 : kid ≠ 0)
    (h3 : rows.findIdx? (fun r => r.player_id = "pyr109") = some idx)
    (h4 : (rows.getD idx default).week_amount = Amt.val w) :
    ∃ st2 rows2 note,
      apply_kevin_bubble_logic st rows = .ok (st2, rows2, note) ∧
      (if |get_kevin_balance st kid + w| < 100 then
        (rows2.getD idx default).week_amount = Amt.val 0 ∧
        get_kevin_balance st2 kid = get_kevin_balance st kid + w
      else
        (rows2.getD idx default).week_amount = Amt.val (get_kevin_balance st kid + w) ∧
        get_kevin_balance st2 kid = 0) := by
  have hidx : idx < rows.length := (List.findIdx?_eq_some_iff_findIdx_eq.mp h3).1
  have hget : ∀ r : Row, (rows.set idx r).getD idx default = r := by
    intro r
    rw [List.getD_eq_getElem?_getD, List.getElem?_set_self hidx]
    rfl
  by_cases hp : |get_kevin_balance st kid + w| < 100
  · refine ⟨_, _, _, kevin_defer_eq st rows kid idx w h1 h2 h3 h4 hp, ?_⟩
    rw [if_pos hp]
    exact ⟨by rw [hget], get_kevin_balance_update_self st kid _⟩
  · refine ⟨_, _, _, kevin_release_eq st rows kid idx w h1 h2 h3 h4 hp, ?_⟩
    rw [if_neg hp]
    exact ⟨by rw [hget], get_kevin_balance_update_self st kid _⟩

/-- Witness for c4_bubble_threshold at balance 70, weekly amount 50
(potential 120, the release case of Scenario D of the specification). -/
theorem c4_witness :
    (⟨some 1, [(1, 70)]⟩ : BubbleState).kevinInstance = some 1 ∧ ((1 : ℤ) ≠ 0) ∧
    (∃ st2 rows2 note,
      apply_kevin_bubble_logic ⟨some 1, [(1, 70)]⟩
        [⟨"pyr109", some "Kevin", "Gabe", Amt.val 50, false, false⟩] = .ok (st2, rows2, note) ∧
      (if |get_kevin_balance ⟨some 1, [(1, 70)]⟩ 1 + 50| < 100 then
        (rows2.getD 0 default).week_amount = Amt.val 0 ∧
        get_kevin_balance st2 1 = get_kevin_balance ⟨some 1, [(1, 70)]⟩ 1 + 50
      else
        (rows2.getD 0 default).week_amount =
          Amt.val (get_kevin_balance ⟨some 1, [(1, 70)]⟩ 1 + 50) ∧
        get_kevin_balance st2 1 = 0)) :=
  ⟨rfl, by decide,
   c4_bubble_threshold ⟨some 1, [(1, 70)]⟩
     [⟨"pyr109", some "Kevin", "Gabe", Amt.val 50, false, false⟩] 1 0 50 rfl (by decide)
     (by with_unfolding_all decide) (by with_unfolding_all decide)⟩

/-- Claim C7, amended: the adjuster is a no-op (rows unchanged, empty
note, state untouched) when the current-instance lookup yields nothing
(or the falsy id 0), or when the designated entity is absent from the
row set.  A missing balance row is not a no-op case: get_kevin_balance
defaults it to 0.0 and the adjuster proceeds (see the counterexample). -/
theorem c7_amended_noop (st : BubbleState) (rows : List Row)
    (h : st.kevinInstance = none ∨ st.kevinInstance = some 0 ∨
      rows.findIdx? (fun r => r.player_id = "pyr109") = none) :
    apply_kevin_bubble_logic st rows = .ok (st, rows, "") := by
  rcases h with h | h | h
  · exact kevin_noop_none st rows h
  · exact kevin_noop_zero st rows h
  · cases hki : st.kevinInstance with
    | none => exact kevin_noop_none st rows hki
    | some kid =>
      by_cases hz : kid = 0
      · subst hz
        exact kevin_noop_zero st rows hki
      · exact kevin_noop_absent st rows kid hki hz h

/-- Witness for c7_amended_noop: a state with a current instance and a
stored balance, but no Kevin row in the input. -/
theorem c7_witness :
    (([⟨"p77", some "Al", "Gabe", Amt.val 10, false, false⟩] : List Row).findIdx?
       (fun r => r.player_id = "pyr109") = none) ∧
    apply_kevin_bubble_logic ⟨some 1, [(1, 40)]⟩
      [⟨"p77", some "Al", "Gabe", Amt.val 10, false, false⟩] =
      .ok (⟨some 1, [(1, 40)]⟩, [⟨"p77", some "Al", "Gabe", Amt.val 10, false, false⟩], "") :=
  ⟨by with_unfolding_all decide,
   c7_amended_noop ⟨some 1, [(1, 40)]⟩ [⟨"p77", some "Al", "Gabe", Amt.val 10, false, false⟩]
     (Or.inr (Or.inr (by with_unfolding_all decide)))⟩

/-- Claim C3, amended: the adjuster is not externally pure - it performs
the balance write-back itself rather than returning the new balance -
but its only effect on the balance store is at the looked-up instance
id: every other key reads unchanged, and in the no-op cases the returned
state is exactly the input state. -/
theorem c3_amended_frame (st : BubbleState) (rows : List Row)
    (out : BubbleState × List Row × String)
    (h : apply_kevin_bubble_logic st rows = .ok out) (k : ℤ)
    (hk : ∀ kid, st.kevinInstance = some kid → k ≠ kid) :
    out.1.balances.lookup k = st.balances.lookup k := by
  cases hki : st.kevinInstance with
  | none =>
    rw [kevin_noop_none st rows hki, Except.ok.injEq] at h
    rw [← h]
  | some kid =>
    have hkkid : k ≠ kid := hk kid hki
    by_cases hz : kid = 0
    · subst hz
      rw [kevin_noop_zero st rows hki, Except.ok.injEq] at h
      rw [← h]
    · cases hfi : rows.findIdx? (fun r => r.player_id = "pyr109") with
      | none =>
        rw [kevin_noop_absent st rows kid hki hz hfi, Except.ok.injEq] at h
        rw [← h]
      | some idx =>
        cases hwk : (rows.getD idx default).week_amount with
        | null =>
          rw [kevin_null_error st rows kid idx hki hz hfi hwk] at h
          exact absurd h (by simp)
        | absent =>
          by_cases hp : |get_kevin_balance st kid + 0| < 100
          · rw [kevin_defer_absent_eq st rows kid idx hki hz hfi hwk hp,
              Except.ok.injEq] at h
            rw [← h]
            exact lookup_update_kevin_balance_ne st kid k _ hkkid
          · rw [kevin_release_absent_eq st rows kid idx hki hz hfi hwk hp,
              Except.ok.injEq] at h
            rw [← h]
            exact lookup_update_kevin_balance_ne st kid k _ hkkid
        | val q =>
          by_cases hp : |get_kevin_balance st kid + q| < 100
          · rw [kevin_defer_eq st rows kid idx q hki hz hfi hwk hp,
              Except.ok.injEq] at h
            rw [← h]
            exact lookup_update_kevin_balance_ne st kid k _ hkkid
          · rw [kevin_release_eq st rows kid idx q hki hz hfi hwk hp,
              Except.ok.injEq] at h
            rw [← h]
            exact lookup_update_kevin_balance_ne st kid k _ hkkid

/-- Witness for c3_amended_frame: a deferral write for instance 1 leaves
the balance row of instance 2 unchanged. -/
theorem c3_witness :
    apply_kevin_bubble_logic ⟨some 1, [(1, 0), (2, 33)]⟩
      [⟨"pyr109", some "Kevin", "Gabe", Amt.val 75, false, false⟩] =
      .ok (⟨some 1, [(1, 75), (2, 33)]⟩,
        [⟨"pyr109", some "Kevin", "Gabe", Amt.val 0, false, false⟩],
        "Kevin bubble: $75.00 added to balance (now $75.00)\nKevin amount set to $0 for this week (bubble active)") ∧
    (⟨some 1, [(1, 75), (2, 33)]⟩ : BubbleState).balances.lookup 2 =
      (⟨some 1, [(1, 0), (2, 33)]⟩ : BubbleState).balances.lookup 2 := by
  have heq : apply_kevin_bubble_logic ⟨some 1, [(1, 0), (2, 33)]⟩
      [⟨"pyr109", some "Kevin", "Gabe", Amt.val 75, false, false⟩] =
      .ok (⟨some 1, [(1, 75), (2, 33)]⟩,
        [⟨"pyr109", some "Kevin", "Gabe", Amt.val 0, false, false⟩],
        "Kevin bubble: $75.00 added to balance (now $75.00)\nKevin amount set to $0 for this week (bubble active)") := by
    with_unfolding_all decide
  refine ⟨heq, ?_⟩
  have := c3_amended_frame ⟨some 1, [(1, 0), (2, 33)]⟩
    [⟨"pyr109", some "Kevin", "Gabe", Amt.val 75, false, false⟩] _ heq 2
    (fun kid hkid => by
      have hk1 : kid = 1 := by injection hkid with hh; exact hh.symm
      subst hk1
      decide)
  simpa using this

/-- Claim C5, amended: the low-exposure split shape is produced whenever
at least one low-exposure group exists and the combined-rule block did
not return (whether or not a dominant winner exists); with three groups
each low-exposure group gets 0.20 and the others 0.80 divided by the
number of remaining groups. -/
theorem c5_amended_low_exposure_rule (agents : List (String × AgentStats))
    (book_total : ℚ) (hlen : agents.length = 3)
    (hlow : lowExposureAgents agents ≠ [])
    (h4 : rule4Result agents book_total = none) :
    calculate_split_percentages agents book_total =
      (agentNames agents).map (fun n =>
        (n, if n ∈ lowExposureAgents agents then (20 : ℚ) / 100
            else (80 : ℚ) / 100 /
              (max ((agentNames agents).length - (lowExposureAgents agents).length) 1 : ℕ))) := by
  have hnames : (agentNames agents).length = 3 := by
    simpa [agentNames] using hlen
  simp only [calculate_split_percentages, hnames, h4]
  norm_num
  cases hdw : dominantWinner agents book_total with
  | none => rw [if_neg hlow]
  | some w =>
    have hcond : ¬ (¬ w = "" ∧ lowExposureAgents agents = []) := by
      rintro ⟨-, hnil⟩
      exact hlow hnil
    dsimp only
    rw [if_neg hcond, if_neg hlow]

/-- Witness for c5_amended_low_exposure_rule at Scenario B of the
specification (Trev low exposure with 3 players and net 200). -/
theorem c5_witness :
    ([("Gabe", (⟨600, 8⟩ : AgentStats)), ("Trev", ⟨200, 3⟩), ("Orso", ⟨100, 7⟩)].length = 3) ∧
    lowExposureAgents [("Gabe", ⟨600, 8⟩), ("Trev", ⟨200, 3⟩), ("Orso", ⟨100, 7⟩)] ≠ [] ∧
    rule4Result [("Gabe", ⟨600, 8⟩), ("Trev", ⟨200, 3⟩), ("Orso", ⟨100, 7⟩)] 900 = none ∧
    calculate_split_percentages
      [("Gabe", ⟨600, 8⟩), ("Trev", ⟨200, 3⟩), ("Orso", ⟨100, 7⟩)] 900 =
      (agentNames [("Gabe", ⟨600, 8⟩), ("Trev", ⟨200, 3⟩), ("Orso", ⟨100, 7⟩)]).map (fun n =>
        (n, if n ∈ lowExposureAgents [("Gabe", ⟨600, 8⟩), ("Trev", ⟨200, 3⟩), ("Orso", ⟨100, 7⟩)]
            then (20 : ℚ) / 100
            else (80 : ℚ) / 100 /
              (max ((agentNames [("Gabe", ⟨600, 8⟩), ("Trev", ⟨200, 3⟩), ("Orso", ⟨100, 7⟩)]).length -
                (lowExposureAgents [("Gabe", ⟨600, 8⟩), ("Trev", ⟨200, 3⟩), ("Orso", ⟨100, 7⟩)]).length) 1 : ℕ))) :=
  ⟨by decide, by with_unfolding_all decide, by with_unfolding_all decide,
   c5_amended_low_exposure_rule _ 900 (by decide) (by with_unfolding_all decide)
     (by with_unfolding_all decide)⟩

theorem sumSnd_map_pair (l : List String) (f : String → ℚ) :
    sumSnd (l.map (fun n => (n, f n))) = (l.map f).sum := by
  simp only [sumSnd, List.map_map]
  rfl

theorem sum_map_constQ (l : List String) (c : ℚ) :
    (l.map (fun _ => c)).sum = l.length * c := by
  induction l with
  | nil => simp
  | cons a t ih =>
    simp only [List.map_cons, List.sum_cons, ih, List.length_cons]
    push_cast
    ring

theorem even_split_sum (names : List String) (h : names ≠ []) :
    sumSnd (names.map (fun n => (n, (1 : ℚ) / names.length))) = 1 := by
  rw [sumSnd_map_pair, sum_map_constQ, mul_one_div]
  apply div_self
  have hlen : names.length ≠ 0 := fun hh => h (List.length_eq_zero.mp hh)
  exact_mod_cast hlen

theorem sum_map_ite_single (l : List String) (hnd : l.Nodup) (w : String) (hw : w ∈ l)
    (x y : ℚ) :
    (l.map (fun n => if n = w then x else y)).sum = x + ((l.length : ℚ) - 1) * y := by
  induction l with
  | nil => cases hw
  | cons a t ih =>
    rcases List.mem_cons.mp hw with rfl | hwt
    · have hnotin : w ∉ t := (List.nodup_cons.mp hnd).1
      have hcongr : ∀ n ∈ t, (if n = w then x else y) = y := by
        intro n hn
        have hne : n ≠ w := fun he => hnotin (he ▸ hn)
        exact if_neg hne
      rw [List.map_cons, List.sum_cons, if_pos rfl, List.map_congr_left hcongr,
        sum_map_constQ]
      push_cast [List.length_cons]
      ring
    · have ha : a ≠ w := fun he => (List.nodup_cons.mp hnd).1 (he ▸ hwt)
      rw [List.map_cons, List.sum_cons, if_neg ha,
        ih (List.nodup_cons.mp hnd).2 hwt]
      push_cast [List.length_cons]
      ring

theorem sum_map_ite_mem (l : List String) :
    ∀ s : List String, l.Nodup → s.Nodup → s ⊆ l → ∀ x y : ℚ,
    (l.map (fun n => if n ∈ s then x else y)).sum =
      (s.length : ℚ) * x + ((l.length : ℚ) - s.length) * y := by
  induction l with
  | nil =>
    intro s _ _ hsub x y
    have hs : s = [] :=
      List.eq_nil_iff_forall_not_mem.mpr (fun a ha => absurd (hsub ha) (List.not_mem_nil a))
    subst hs
    simp
  | cons a t ih =>
    intro s hl hs hsub x y
    have hat : a ∉ t := (List.nodup_cons.mp hl).1
    by_cases hain : a ∈ s
    · have h1 : (s.erase a).Nodup := hs.erase a
      have h2 : s.erase a ⊆ t := by
        intro e he
        have hpair : e ≠ a ∧ e ∈ s := (hs.mem_erase_iff).mp he
        exact (List.mem_cons.mp (hsub hpair.2)).resolve_left hpair.1
      have hcongr : ∀ n ∈ t, (if n ∈ s then x else y) = (if n ∈ s.erase a then x else y) := by
        intro n hn
        have hna : n ≠ a := fun he => hat (he ▸ hn)
        by_cases hns : n ∈ s
        · rw [if_pos hns, if_pos ((List.mem_erase_of_ne hna).mpr hns)]
        · rw [if_neg hns, if_neg (fun hmem => hns (List.mem_of_mem_erase hmem))]
      have hlen : (s.erase a).length = s.length - 1 := List.length_erase_of_mem hain
      have hpos : 1 ≤ s.length := List.length_pos.mpr (List.ne_nil_of_mem hain)
      rw [List.map_cons, List.sum_cons, if_pos hain, List.map_congr_left hcongr,
        ih (s.erase a) (List.nodup_cons.mp hl).2 h1 h2 x y, hlen]
      have hcast : ((s.length - 1 : ℕ) : ℚ) = (s.length : ℚ) - 1 := by
        rw [Nat.cast_sub hpos]
        norm_num
      rw [hcast]
      push_cast [List.length_cons]
      ring
    · have h2 : s ⊆ t := by
        intro e he
        exact (List.mem_cons.mp (hsub he)).resolve_left (fun heq => hain (heq ▸ he))
      rw [List.map_cons, List.sum_cons, if_neg hain,
        ih s (List.nodup_cons.mp hl).2 hs h2 x y]
      push_cast [List.length_cons]
      ring

theorem setK_map_pair (l : List String) (f : String → ℚ) (k : String) (v : ℚ) :
    setK (l.map (fun n => (n, f n))) k v =
      l.map (fun n => (n, if n = k then v else f n)) := by
  unfold setK
  rw [List.map_map]
  apply List.map_congr_left
  intro n _
  by_cases h : n = k
  · subst h
    simp
  · simp [h]

theorem perm_three (l : List String) (hnd : l.Nodup) (hlen : l.length = 3)
    (w m low : String) (hw : w ∈ l) (hm : m ∈ l) (hlow : low ∈ l)
    (h1 : m ≠ w) (h2 : w ≠ low) (h3 : m ≠ low) : List.Perm l [w, m, low] := by
  have hnd2 : ([w, m, low] : List String).Nodup := by
    simp [h1.symm, h2, h3]
  have hsub : ([w, m, low] : List String) ⊆ l := by
    intro x hx
    rcases List.mem_cons.mp hx with rfl | hx
    · exact hw
    rcases List.mem_cons.mp hx with rfl | hx
    · exact hm
    rcases List.mem_cons.mp hx with rfl | hx
    · exact hlow
    · cases hx
  have hsp : List.Subperm [w, m, low] l := List.subperm_of_subset hnd2 hsub
  exact (hsp.perm_of_length_le (by rw [hlen]; rfl)).symm

theorem dominantWinner_mem (agents : List (String × AgentStats)) (bt : ℚ) (w : String)
    (h : dominantWinner agents bt = some w) : w ∈ agentNames agents := by
  unfold dominantWinner at h
  by_cases hb : 1000 < bt
  · rw [if_pos hb] at h
    rcases Option.map_eq_some'.mp h with ⟨p, hp, rfl⟩
    exact List.mem_map_of_mem _ (List.mem_of_find?_eq_some hp)
  · rw [if_neg hb] at h
    cases h

theorem lowExposure_subset (agents : List (String × AgentStats)) :
    lowExposureAgents agents ⊆ agentNames agents := by
  unfold lowExposureAgents agentNames
  intro x hx
  rcases List.mem_map.mp hx with ⟨p, hp, rfl⟩
  exact List.mem_map_of_mem _ (List.mem_of_mem_filter hp)

theorem lowExposure_nodup (agents : List (String × AgentStats))
    (hnd : (agentNames agents).Nodup) : (lowExposureAgents agents).Nodup := by
  unfold lowExposureAgents
  have hsub : List.Sublist ((agents.filter (fun p => isLowExposure p.2)).map Prod.fst)
      (agents.map Prod.fst) := (List.filter_sublist _).map _
  exact hnd.sublist hsub

theorem lowExposure_le_length (agents : List (String × AgentStats)) :
    (lowExposureAgents agents).length ≤ agents.length := by
  unfold lowExposureAgents
  rw [List.length_map]
  exact (List.filter_sublist _).length_le

theorem rule4_sum (agents : List (String × AgentStats)) (bt : ℚ) (s : List (String × ℚ))
    (hnd : (agentNames agents).Nodup) (hlen : agents.length = 3)
    (h : rule4Result agents bt = some s) :
    sumSnd s = 19 / 20 := by
  have hnames3 : (agentNames agents).length = 3 := by
    simpa [agentNames] using hlen
  unfold rule4Result at h
  simp only [] at h
  split at h
  · exact Option.noConfusion h
  · rename_i w hdw
    split at h
    · rename_i hc1
      split at h
      · exact Option.noConfusion h
      · rename_i m hfm
        split at h
        · rename_i hc2
          injection h with hs
          rw [← hs]
          have hwmem : w ∈ agentNames agents := dominantWinner_mem agents bt w hdw
          have hmmem : m ∈ agentNames agents := List.mem_of_find?_eq_some hfm
          have hmpred := List.find?_some hfm
          have hmw : m ≠ w := by
            by_contra hmm
            simp [hmm] at hmpred
          have hmlow : m ∉ lowExposureAgents agents := by
            by_contra hmm
            simp [hmm] at hmpred
          obtain ⟨low, hlow_eq⟩ := List.length_eq_one.mp hc2.2
          have hlmem : low ∈ agentNames agents :=
            lowExposure_subset agents (by rw [hlow_eq]; exact List.mem_singleton_self low)
          have hwlow : w ≠ low := by
            intro he
            exact hc1.2.2 (by rw [hlow_eq, he]; exact List.mem_singleton_self low)
          have hmlow2 : m ≠ low := by
            intro he
            exact hmlow (by rw [hlow_eq, he]; exact List.mem_singleton_self low)
          rw [hlow_eq]
          show sumSnd (setK (setK (setK
            ((agentNames agents).map (fun n => (n, (1 : ℚ) / (agentNames agents).length)))
            w (45 / 100)) m (35 / 100)) (List.headD [low] "") (15 / 100)) = 19 / 20
          have hhd : List.headD [low] "" = low := rfl
          rw [hhd, setK_map_pair, setK_map_pair, setK_map_pair, sumSnd_map_pair]
          have hperm := perm_three (agentNames agents) hnd hnames3 w m low hwmem hmmem
            hlmem hmw hwlow hmlow2
          rw [(hperm.map _).sum_eq]
          have hwm : w ≠ m := fun he => hmw he.symm
          simp only [List.map_cons, List.map_nil, List.sum_cons, List.sum_nil,
            if_pos rfl, if_neg hwlow, if_neg hwm, if_neg hmlow2]
          norm_num
        · exact Option.noConfusion h
    · exact Option.noConfusion h

theorem rule2_sum (agents : List (String × AgentStats))
    (hnd : (agentNames agents).Nodup) (h3 : (agentNames agents).length = 3)
    (hlow : lowExposureAgents agents ≠ []) :
    sumSnd ((agentNames agents).map (fun n =>
      (n, if n ∈ lowExposureAgents agents then (20 : ℚ) / 100
          else (80 : ℚ) / 100 /
            (max ((agentNames agents).length - (lowExposureAgents agents).length) 1 : ℕ)))) =
      (if (lowExposureAgents agents).length = 2 then 6 / 5
       else if (lowExposureAgents agents).length = 3 then 3 / 5 else 1) := by
  have hsubl := lowExposure_subset agents
  have hlnd := lowExposure_nodup agents hnd
  have hk1 : 1 ≤ (lowExposureAgents agents).length :=
    List.length_pos.mpr hlow
  have hk3 : (lowExposureAgents agents).length ≤ 3 := by
    calc (lowExposureAgents agents).length
        ≤ (agentNames agents).length := by
          rw [agentNames, List.length_map]
          exact lowExposure_le_length agents
      _ = 3 := h3
  rw [sumSnd_map_pair, sum_map_ite_mem (agentNames agents) (lowExposureAgents agents)
    hnd hlnd hsubl, h3]
  have hcases : (lowExposureAgents agents).length = 1 ∨
      (lowExposureAgents agents).length = 2 ∨ (lowExposureAgents agents).length = 3 := by
    omega
  rcases hcases with hk | hk | hk <;> rw [hk] <;> norm_num

/-- Claim C1, amended: the fractions returned by the split evaluator sum
to 1.0 exactly when the even split, the dominant-winner rule, or the
low-exposure rule with a single low-exposure group fires; the combined
rule makes them sum to 0.95, and the low-exposure rule with two (resp.
three) low-exposure groups makes them sum to 1.2 (resp. 0.6). -/
theorem c1_amended_sum_characterization (agents : List (String × AgentStats)) (bt : ℚ)
    (hne : agents ≠ []) (hnd : (agentNames agents).Nodup) :
    sumSnd (calculate_split_percentages agents bt) =
      (if agents.length = 3 ∧ (rule4Result agents bt).isSome = true then 19 / 20
       else if agents.length = 3 ∧ (lowExposureAgents agents).length = 2 then 6 / 5
       else if agents.length = 3 ∧ (lowExposureAgents agents).length = 3 then 3 / 5
       else 1) := by
  have hnames_ne : agentNames agents ≠ [] := by
    intro hh
    exact hne (List.map_eq_nil_iff.mp hh)
  have hlen_names : (agentNames agents).length = agents.length := List.length_map _ _
  simp only [calculate_split_percentages]
  by_cases h0 : (agentNames agents).length = 0
  · exact absurd (List.length_eq_zero.mp h0) hnames_ne
  rw [if_neg h0]
  by_cases h3 : (agentNames agents).length ≠ 3
  · rw [if_pos h3]
    have ha3 : ¬ agents.length = 3 := by
      intro hh
      exact h3 (by rw [hlen_names, hh])
    rw [even_split_sum _ hnames_ne]
    simp [ha3]
  · have h3' : (agentNames agents).length = 3 := not_not.mp h3
    have hlen3 : agents.length = 3 := by rw [← hlen_names, h3']
    rw [if_neg h3]
    cases hr4 : rule4Result agents bt with
    | some s =>
      simp only [hr4]
      rw [rule4_sum agents bt s hnd hlen3 hr4]
      rw [if_pos ⟨hlen3, rfl⟩]
    | none =>
      simp only [hr4]
      rw [if_neg (show ¬ (agents.length = 3 ∧
        (none : Option (List (String × ℚ))).isSome = true) from by
          rintro ⟨-, hs⟩
          exact Bool.noConfusion hs)]
      cases hdw : dominantWinner agents bt with
      | some w =>
        dsimp only
        by_cases hc : ¬ w = "" ∧ lowExposureAgents agents = []
        · rw [if_pos hc]
          have hwmem : w ∈ agentNames agents := dominantWinner_mem agents bt w hdw
          rw [sumSnd_map_pair, sum_map_ite_single _ hnd w hwmem, h3']
          have hl0 : (lowExposureAgents agents).length = 0 := by rw [hc.2]; rfl
          rw [if_neg (by rintro ⟨-, h2⟩; rw [hl0] at h2; exact absurd h2 (by norm_num)),
            if_neg (by rintro ⟨-, h2⟩; rw [hl0] at h2; exact absurd h2 (by norm_num))]
          norm_num
        · rw [if_neg hc]
          by_cases hlow : lowExposureAgents agents ≠ []
          · rw [if_pos hlow, rule2_sum agents hnd h3' hlow]
            simp [hlen3]
          · have hl : lowExposureAgents agents = [] := not_not.mp hlow
            rw [if_neg hlow, even_split_sum _ hnames_ne]
            have hl0 : (lowExposureAgents agents).length = 0 := by rw [hl]; rfl
            rw [if_neg (by rintro ⟨-, h2⟩; rw [hl0] at h2; exact absurd h2 (by norm_num)),
              if_neg (by rintro ⟨-, h2⟩; rw [hl0] at h2; exact absurd h2 (by norm_num))]
      | none =>
        dsimp only
        by_cases hlow : lowExposureAgents agents ≠ []
        · rw [if_pos hlow, rule2_sum agents hnd h3' hlow]
          simp [hlen3]
        · have hl : lowExposureAgents agents = [] := not_not.mp hlow
          rw [if_neg hlow, even_split_sum _ hnames_ne]
          have hl0 : (lowExposureAgents agents).length = 0 := by rw [hl]; rfl
          rw [if_neg (by rintro ⟨-, h2⟩; rw [hl0] at h2; exact absurd h2 (by norm_num)),
            if_neg (by rintro ⟨-, h2⟩; rw [hl0] at h2; exact absurd h2 (by norm_num))]

/-- Witness for c1_amended_sum_characterization at the even-split
scenario (Scenario A of the specification): the sum is 1. -/
theorem c1_witness :
    ([("Gabe", (⟨300, 8⟩ : AgentStats)), ("Trev", ⟨300, 7⟩), ("Orso", ⟨300, 6⟩)] ≠
      ([] : List (String × AgentStats))) ∧
    (agentNames [("Gabe", ⟨300, 8⟩), ("Trev", ⟨300, 7⟩), ("Orso", ⟨300, 6⟩)]).Nodup ∧
    sumSnd (calculate_split_percentages
      [("Gabe", ⟨300, 8⟩), ("Trev", ⟨300, 7⟩), ("Orso", ⟨300, 6⟩)] 900) = 1 :=
  ⟨by decide, by with_unfolding_all decide, by
    have h := c1_amended_sum_characterization
      [("Gabe", ⟨300, 8⟩), ("Trev", ⟨300, 7⟩), ("Orso", ⟨300, 6⟩)] 900
      (by decide) (by with_unfolding_all decide)
    rw [h]
    with_unfolding_all decide⟩

theorem rhe_abs_le (x : ℚ) : |x - rhe x| ≤ 1 / 2 := by
  unfold rhe
  have h0 : (0 : ℚ) ≤ x - ⌊x⌋ := sub_nonneg.mpr (Int.floor_le x)
  have h1 : x - ⌊x⌋ < 1 := by
    have := Int.lt_floor_add_one x
    linarith
  simp only []
  split_ifs with hlt hgt hev
  · rw [abs_of_nonneg h0]
    linarith
  · have : x - (((⌊x⌋ : ℤ) + 1 : ℤ) : ℚ) ≤ 0 := by push_cast; linarith
    rw [abs_of_nonpos this]
    push_cast
    linarith
  · have heq : x - ⌊x⌋ = 1 / 2 := le_antisymm (not_lt.mp hgt) (not_lt.mp hlt)
    rw [abs_of_nonneg h0, heq]
  · have heq : x - ⌊x⌋ = 1 / 2 := le_antisymm (not_lt.mp hgt) (not_lt.mp hlt)
    have : x - (((⌊x⌋ : ℤ) + 1 : ℤ) : ℚ) ≤ 0 := by push_cast; linarith
    rw [abs_of_nonpos this]
    push_cast
    linarith

theorem round2_diff (x : ℚ) : |x - round2 x| ≤ 1 / 200 := by
  unfold round2
  have hb := rhe_abs_le (x * 100)
  have h2 : x - (rhe (x * 100) : ℚ) / 100 = (x * 100 - rhe (x * 100)) / 100 := by ring
  rw [h2, abs_div]
  rw [abs_of_pos (show (0 : ℚ) < 100 by norm_num)]
  rw [div_le_iff₀ (show (0 : ℚ) < 100 by norm_num)]
  calc |x * 100 - (rhe (x * 100) : ℚ)| ≤ 1 / 2 := hb
    _ = 1 / 200 * 100 := by norm_num

theorem rhe_zero_of_small (y : ℚ) (h : |y| ≤ 1 / 2) : rhe y = 0 := by
  obtain ⟨hlb, hub⟩ := abs_le.mp h
  unfold rhe
  simp only []
  by_cases hy : 0 ≤ y
  · have hf : ⌊y⌋ = 0 := by
      rw [Int.floor_eq_zero_iff]
      constructor
      · exact hy
      · linarith
    rw [hf]
    split_ifs with hlt hgt hev
    · rfl
    · push_cast at hgt
      linarith
    · rfl
    · exact absurd even_zero hev
  · have hf : ⌊y⌋ = -1 := by
      rw [Int.floor_eq_iff]
      constructor
      · push_cast
        linarith
      · push_cast
        linarith
    rw [hf]
    split_ifs with hlt hgt hev
    · push_cast at hlt
      linarith
    · norm_num
    · exact absurd hev (by decide)
    · norm_num

theorem round2_zero_of_small (x : ℚ) (h : |x| ≤ 1 / 200) : round2 x = 0 := by
  unfold round2
  rw [rhe_zero_of_small (x * 100) (by
    rw [abs_mul, abs_of_pos (show (0 : ℚ) < 100 by norm_num)]
    calc |x| * 100 ≤ 1 / 200 * 100 := by
          apply mul_le_mul_of_nonneg_right h
          norm_num
      _ = 1 / 2 := by norm_num)]
  norm_num

/-- The minimum side of a loop step rounds to a zero remainder: the
remainder after subtracting the rounded minimum is within half a cent of
zero, so it rounds to exactly zero. -/
theorem min_side_remainder_zero (pa ra : ℚ) (hle : pa ≤ ra) :
    round2 (pa - round2 (min pa ra)) = 0 := by
  rw [min_eq_left hle]
  apply round2_zero_of_small
  exact round2_diff pa

theorem transfersLoop_length (tol : ℚ) (htol : 0 ≤ tol) :
    ∀ fuel payers receivers i j acc,
    (transfersLoop fuel payers receivers i j tol acc).1.length ≤
      acc.length + ((payers.length - i) + (receivers.length - j) - 1) := by
  intro fuel
  induction fuel with
  | zero =>
    intro payers receivers i j acc
    simp only [transfersLoop]
    exact Nat.le_add_right _ _
  | succ n ih =>
    intro payers receivers i j acc
    by_cases hij : i < payers.length ∧ j < receivers.length
    · have hstep : transfersLoop (n + 1) payers receivers i j tol acc =
        transfersLoop n
          (payers.set i ((payers.getD i default).1,
            round2 ((payers.getD i default).2 -
              round2 (min (payers.getD i default).2 (receivers.getD j default).2))))
          (receivers.set j ((receivers.getD j default).1,
            round2 ((receivers.getD j default).2 -
              round2 (min (payers.getD i default).2 (receivers.getD j default).2))))
          (if round2 ((payers.getD i default).2 -
              round2 (min (payers.getD i default).2 (receivers.getD j default).2)) ≤ tol
            then i + 1 else i)
          (if round2 ((receivers.getD j default).2 -
              round2 (min (payers.getD i default).2 (receivers.getD j default).2)) ≤ tol
            then j + 1 else j)
          tol
          (if tol ≤ round2 (min (payers.getD i default).2 (receivers.getD j default).2)
            then acc ++ [⟨(payers.getD i default).1, (receivers.getD j default).1,
              round2 (min (payers.getD i default).2 (receivers.getD j default).2)⟩]
            else acc) := by
        conv_lhs => rw [transfersLoop]
        rw [if_pos hij]
      rw [hstep]
      have hadv : round2 ((payers.getD i default).2 -
            round2 (min (payers.getD i default).2 (receivers.getD j default).2)) = 0 ∨
          round2 ((receivers.getD j default).2 -
            round2 (min (payers.getD i default).2 (receivers.getD j default).2)) = 0 := by
        by_cases hle : (payers.getD i default).2 ≤ (receivers.getD j default).2
        · exact Or.inl (min_side_remainder_zero _ _ hle)
        · right
          rw [min_comm]
          exact min_side_remainder_zero _ _ (le_of_not_le hle)
      refine le_trans (ih _ _ _ _ _) ?_
      have hlenp : (payers.set i ((payers.getD i default).1,
          round2 ((payers.getD i default).2 -
            round2 (min (payers.getD i default).2 (receivers.getD j default).2)))).length =
          payers.length := List.length_set _ _ _
      have hlenr : (receivers.set j ((receivers.getD j default).1,
          round2 ((receivers.getD j default).2 -
            round2 (min (payers.getD i default).2 (receivers.getD j default).2)))).length =
          receivers.length := List.length_set _ _ _
      rw [hlenp, hlenr]
      have hacc : (if tol ≤ round2 (min (payers.getD i default).2 (receivers.getD j default).2)
          then acc ++ [⟨(payers.getD i default).1, (receivers.getD j default).1,
            round2 (min (payers.getD i default).2 (receivers.getD j default).2)⟩]
          else acc).length ≤ acc.length + 1 := by
        split_ifs
        · rw [List.length_append]
          rfl
        · exact Nat.le_succ _
      have hi2 : (if round2 ((payers.getD i default).2 -
            round2 (min (payers.getD i default).2 (receivers.getD j default).2)) ≤ tol
          then i + 1 else i) = i + 1 ∨
          ((if round2 ((payers.getD i default).2 -
            round2 (min (payers.getD i default).2 (receivers.getD j default).2)) ≤ tol
          then i + 1 else i) = i ∧
          (if round2 ((receivers.getD j default).2 -
            round2 (min (payers.getD i default).2 (receivers.getD j default).2)) ≤ tol
          then j + 1 else j) = j + 1) := by
        rcases hadv with hz | hz
        · left
          rw [if_pos (by rw [hz]; exact htol)]
        · by_cases hpz : round2 ((payers.getD i default).2 -
              round2 (min (payers.getD i default).2 (receivers.getD j default).2)) ≤ tol
          · left
            rw [if_pos hpz]
          · right
            refine ⟨by rw [if_neg hpz], ?_⟩
            rw [if_pos (by rw [hz]; exact htol)]
      have hj2 : (if round2 ((receivers.getD j default).2 -
            round2 (min (payers.getD i default).2 (receivers.getD j default).2)) ≤ tol
          then j + 1 else j) = j + 1 ∨
          (if round2 ((receivers.getD j default).2 -
            round2 (min (payers.getD i default).2 (receivers.getD j default).2)) ≤ tol
          then j + 1 else j) = j := by
        split_ifs
        · exact Or.inl rfl
        · exact Or.inr rfl
      have hi3 : (if round2 ((payers.getD i default).2 -
            round2 (min (payers.getD i default).2 (receivers.getD j default).2)) ≤ tol
          then i + 1 else i) = i + 1 ∨
          (if round2 ((payers.getD i default).2 -
            round2 (min (payers.getD i default).2 (receivers.getD j default).2)) ≤ tol
          then i + 1 else i) = i := by
        split_ifs
        · exact Or.inl rfl
        · exact Or.inr rfl
      rcases hi2 with hi2 | ⟨hi2, hj2'⟩ <;> rcases hi3 with hi3 | hi3 <;>
        rcases hj2 with hj2 | hj2 <;>
        omega
    · conv_lhs => rw [transfersLoop, if_neg hij]
      exact Nat.le_add_right _ _

/-- Claim C9, confirmed.  For every settlement map and nonnegative
tolerance, compute_transfers emits at most payers + receivers - 1
transfers (natural-number subtraction; payers are the settlement values
above the tolerance, receivers those below minus the tolerance): every
iteration of the loop advances at least one pointer, since the side
achieving the minimum is left with a remainder within half a cent of
zero, which rounds to 0 and is at most the tolerance. -/
theorem c9_transfer_count_bound (settlements : List (String × ℚ)) (tol : ℚ)
    (htol : 0 ≤ tol) :
    (compute_transfers settlements tol).length ≤
      (settlements.filter (fun p => decide (tol < p.2))).length +
      (settlements.filter (fun p => decide (p.2 < -tol))).length - 1 := by
  unfold compute_transfers
  simp only []
  refine le_trans (transfersLoop_length tol htol _ _ _ 0 0 []) ?_
  have hp : (sortDesc (settlements.filter (fun p => decide (tol < p.2)))).length =
      (settlements.filter (fun p => decide (tol < p.2))).length := by
    unfold sortDesc
    exact (List.perm_insertionSort _ _).length_eq
  have hr : (sortDesc ((settlements.filter (fun p => decide (p.2 < -tol))).map
      (fun p => (p.1, -p.2)))).length =
      (settlements.filter (fun p => decide (p.2 < -tol))).length := by
    unfold sortDesc
    rw [(List.perm_insertionSort _ _).length_eq, List.length_map]
  rw [hp, hr]
  simp only [List.length_nil, Nat.zero_add, Nat.sub_zero]
  omega

/-- Witness for c9_transfer_count_bound: one payer and one receiver give
at most one transfer. -/
theorem c9_witness :
    (0 : ℚ) ≤ 1 / 100 ∧
    (compute_transfers [("A", 5), ("B", -5)] (1 / 100)).length ≤ 1 := by
  constructor
  · norm_num
  · have h := c9_transfer_count_bound [("A", 5), ("B", -5)] (1 / 100) (by norm_num)
    refine le_trans h ?_
    with_unfolding_all decide

/-- A rational that is a whole number of cents (the amended transfer
conservation claim is stated for settlement maps of whole cents). -/
def IsCents (x : ℚ) : Prop := ∃ n : ℤ, x = n / 100

theorem IsCents.sub {x y : ℚ} (hx : IsCents x) (hy : IsCents y) : IsCents (x - y) := by
  obtain ⟨n, rfl⟩ := hx
  obtain ⟨m, rfl⟩ := hy
  exact ⟨n - m, by push_cast; ring⟩

theorem IsCents.neg {x : ℚ} (hx : IsCents x) : IsCents (-x) := by
  obtain ⟨n, rfl⟩ := hx
  exact ⟨-n, by push_cast; ring⟩

theorem IsCents.min {x y : ℚ} (hx : IsCents x) (hy : IsCents y) : IsCents (min x y) := by
  rcases min_choice x y with h | h <;> rw [h]
  · exact hx
  · exact hy

theorem rhe_intCast (n : ℤ) : rhe (n : ℚ) = n := by
  unfold rhe
  simp only [Int.floor_intCast, sub_self]
  norm_num

theorem round2_cents {x : ℚ} (hx : IsCents x) : round2 x = x := by
  obtain ⟨n, rfl⟩ := hx
  unfold round2
  have h : ((n : ℚ) / 100) * 100 = (n : ℚ) := by
    field_simp
  rw [h, rhe_intCast]

theorem getD_set_self (l : List (String × ℚ)) (i : ℕ) (x : String × ℚ)
    (h : i < l.length) : (l.set i x).getD i default = x := by
  rw [List.getD_eq_getElem?_getD, List.getElem?_set_self h]
  rfl

theorem getD_set_ne (l : List (String × ℚ)) (i k : ℕ) (x : String × ℚ)
    (h : k ≠ i) : (l.set i x).getD k default = l.getD k default := by
  rw [List.getD_eq_getElem?_getD, List.getElem?_set_ne (fun he => h he.symm),
    ← List.getD_eq_getElem?_getD]

theorem map_fst_set (l : List (String × ℚ)) (i : ℕ) (v : ℚ) :
    (l.set i ((l.getD i default).1, v)).map Prod.fst = l.map Prod.fst := by
  induction l generalizing i with
  | nil => simp
  | cons a t ih =>
    cases i with
    | zero => simp [List.getD_cons_zero]
    | succ k =>
      simp only [List.set_cons_succ, List.map_cons, List.getD_cons_succ]
      rw [ih k]

/-- Sum of the amounts of an association list of settlements. -/
def sndSum (l : List (String × ℚ)) : ℚ := (l.map Prod.snd).sum

theorem sndSum_set (l : List (String × ℚ)) (i : ℕ) (n : String) (v : ℚ)
    (h : i < l.length) :
    sndSum (l.set i (n, v)) = sndSum l - (l.getD i default).2 + v := by
  induction l generalizing i with
  | nil => simp at h
  | cons a t ih =>
    cases i with
    | zero =>
      simp only [List.set_cons_zero, sndSum, List.map_cons, List.sum_cons,
        List.getD_cons_zero]
      ring
    | succ k =>
      have hk : k < t.length := by simpa using h
      simp only [List.set_cons_succ, sndSum, List.map_cons, List.sum_cons,
        List.getD_cons_succ]
      have := ih k hk
      simp only [sndSum] at this
      rw [this]
      ring

theorem sumFrom_append_single (acc : List Transfer) (t : Transfer) (g : String) :
    sumFrom (acc ++ [t]) g = sumFrom acc g + (if t.src = g then t.amount else 0) := by
  unfold sumFrom
  rw [List.filter_append, List.map_append, List.sum_append]
  by_cases h : t.src = g
  · simp [h]
  · simp [h]

theorem sumTo_append_single (acc : List Transfer) (t : Transfer) (g : String) :
    sumTo (acc ++ [t]) g = sumTo acc g + (if t.dst = g then t.amount else 0) := by
  unfold sumTo
  rw [List.filter_append, List.map_append, List.sum_append]
  by_cases h : t.dst = g
  · simp [h]
  · simp [h]

theorem sndSum_nonneg_of (l : List (String × ℚ))
    (h : ∀ k, k < l.length → 0 ≤ (l.getD k default).2) : 0 ≤ sndSum l := by
  induction l with
  | nil => simp [sndSum]
  | cons a t ih =>
    have h0 : 0 ≤ a.2 := by
      have := h 0 (by simp)
      simpa [List.getD_cons_zero] using this
    have ht : 0 ≤ sndSum t := by
      apply ih
      intro k hk
      have := h (k + 1) (by simpa using Nat.succ_lt_succ hk)
      simpa [List.getD_cons_succ] using this
    simp only [sndSum, List.map_cons, List.sum_cons]
    have : sndSum t = (t.map Prod.snd).sum := rfl
    linarith [this ▸ ht]

theorem sndSum_le_of (l : List (String × ℚ)) (c : ℚ)
    (h : ∀ k, k < l.length → (l.getD k default).2 ≤ c) (hc : 0 ≤ c) :
    sndSum l ≤ l.length * c := by
  induction l with
  | nil => simp [sndSum]
  | cons a t ih =>
    have h0 : a.2 ≤ c := by
      have := h 0 (by simp)
      simpa [List.getD_cons_zero] using this
    have ht : sndSum t ≤ t.length * c := by
      apply ih
      intro k hk
      have := h (k + 1) (by simpa using Nat.succ_lt_succ hk)
      simpa [List.getD_cons_succ] using this
    simp only [sndSum, List.map_cons, List.sum_cons, List.length_cons]
    have heq : sndSum t = (t.map Prod.snd).sum := rfl
    push_cast
    nlinarith [heq ▸ ht]

theorem getD_le_sndSum (l : List (String × ℚ)) (k : ℕ) (hk : k < l.length)
    (h : ∀ k2, k2 < l.length → 0 ≤ (l.getD k2 default).2) :
    (l.getD k default).2 ≤ sndSum l := by
  induction l generalizing k with
  | nil => simp at hk
  | cons a t ih =>
    have h0 : 0 ≤ a.2 := by
      have := h 0 (by simp)
      simpa [List.getD_cons_zero] using this
    have hth : ∀ k2, k2 < t.length → 0 ≤ (t.getD k2 default).2 := by
      intro k2 hk2
      have := h (k2 + 1) (by simpa using Nat.succ_lt_succ hk2)
      simpa [List.getD_cons_succ] using this
    have htsum : 0 ≤ sndSum t := sndSum_nonneg_of t hth
    cases k with
    | zero =>
      simp only [List.getD_cons_zero, sndSum, List.map_cons, List.sum_cons]
      have heq : sndSum t = (t.map Prod.snd).sum := rfl
      linarith [heq ▸ htsum]
    | succ k2 =>
      have hk2 : k2 < t.length := by simpa using hk
      simp only [List.getD_cons_succ, sndSum, List.map_cons, List.sum_cons]
      have := ih k2 hk2 hth
      have heq : sndSum t = (t.map Prod.snd).sum := rfl
      linarith [heq ▸ this]

theorem nodup_fst_getD_ne (l : List (String × ℚ))
    (hnd : (l.map Prod.fst).Nodup) (k i : ℕ) (hk : k < l.length) (hi : i < l.length)
    (hne : k ≠ i) : (l.getD k default).1 ≠ (l.getD i default).1 := by
  have hget : ∀ m (hm : m < l.length),
      (l.getD m default).1 = (l.map Prod.fst).get ⟨m, by simpa using hm⟩ := by
    intro m hm
    rw [List.getD_eq_getElem?_getD, List.getElem?_eq_getElem hm]
    simp [List.get_eq_getElem]
  rw [hget k hk, hget i hi]
  intro he
  exact hne (Fin.val_eq_of_eq ((List.nodup_iff_injective_get.mp hnd) he))

/-- Invariant carried into a transfersLoop call (cents amounts, distinct
names, processed entries settled within the tolerance, pending entries
above it, and enough fuel for the remaining pointers). -/
structure LoopHyp (tol : ℚ) (P R : List (String × ℚ)) (i j : ℕ) (fuel : ℕ) : Prop where
  nodupP : (P.map Prod.fst).Nodup
  nodupR : (R.map Prod.fst).Nodup
  centsP : ∀ k, k < P.length → IsCents (P.getD k default).2
  centsR : ∀ k, k < R.length → IsCents (R.getD k default).2
  hi : i ≤ P.length
  hj : j ≤ R.length
  doneP : ∀ k, k < i → k < P.length →
    0 ≤ (P.getD k default).2 ∧ (P.getD k default).2 ≤ tol
  curP : ∀ k, i ≤ k → k < P.length → tol < (P.getD k default).2
  doneR : ∀ k, k < j → k < R.length →
    0 ≤ (R.getD k default).2 ∧ (R.getD k default).2 ≤ tol
  curR : ∀ k, j ≤ k → k < R.length → tol < (R.getD k default).2
  fuelOk : (P.length - i) + (R.length - j) ≤ fuel

/-- What holds of the loop's final state: lengths and names preserved,
one side exhausted, processed entries settled within tolerance, per-entry
flow accounting against the emitted transfers, no flow for foreign
names, and global conservation of the two remaining totals. -/
structure LoopConc (tol : ℚ) (P R : List (String × ℚ)) (i j : ℕ)
    (acc ts : List Transfer) (P2 R2 : List (String × ℚ)) (i2 j2 : ℕ) : Prop where
  lenP : P2.length = P.length
  lenR : R2.length = R.length
  nameP : ∀ k, (P2.getD k default).1 = (P.getD k default).1
  nameR : ∀ k, (R2.getD k default).1 = (R.getD k default).1
  exit2 : i2 = P.length ∨ j2 = R.length
  donePf : ∀ k, k < P.length → k < i2 →
    0 ≤ (P2.getD k default).2 ∧ (P2.getD k default).2 ≤ tol
  curPf : ∀ k, k < P.length → i2 ≤ k → tol < (P2.getD k default).2
  doneRf : ∀ k, k < R.length → k < j2 →
    0 ≤ (R2.getD k default).2 ∧ (R2.getD k default).2 ≤ tol
  curRf : ∀ k, k < R.length → j2 ≤ k → tol < (R2.getD k default).2
  flowP : ∀ k, k < P.length → sumFrom ts (P.getD k default).1 =
    sumFrom acc (P.getD k default).1 + ((P.getD k default).2 - (P2.getD k default).2)
  flowR : ∀ k, k < R.length → sumTo ts (R.getD k default).1 =
    sumTo acc (R.getD k default).1 + ((R.getD k default).2 - (R2.getD k default).2)
  otherP : ∀ g, g ∉ P.map Prod.fst → sumFrom ts g = sumFrom acc g
  otherR : ∀ g, g ∉ R.map Prod.fst → sumTo ts g = sumTo acc g
  conserve : sndSum P - sndSum P2 = sndSum R - sndSum R2

theorem transfersLoop_step (n : ℕ) (P R : List (String × ℚ)) (i j : ℕ) (tol : ℚ)
    (acc : List Transfer) (hij : i < P.length ∧ j < R.length) :
    transfersLoop (n + 1) P R i j tol acc =
      transfersLoop n
        (P.set i ((P.getD i default).1,
          round2 ((P.getD i default).2 -
            round2 (min (P.getD i default).2 (R.getD j default).2))))
        (R.set j ((R.getD j default).1,
          round2 ((R.getD j default).2 -
            round2 (min (P.getD i default).2 (R.getD j default).2))))
        (if round2 ((P.getD i default).2 -
            round2 (min (P.getD i default).2 (R.getD j default).2)) ≤ tol
          then i + 1 else i)
        (if round2 ((R.getD j default).2 -
            round2 (min (P.getD i default).2 (R.getD j default).2)) ≤ tol
          then j + 1 else j)
        tol
        (if tol ≤ round2 (min (P.getD i default).2 (R.getD j default).2)
          then acc ++ [⟨(P.getD i default).1, (R.getD j default).1,
            round2 (min (P.getD i default).2 (R.getD j default).2)⟩]
          else acc) := by
  conv_lhs => rw [transfersLoop]
  rw [if_pos hij]

theorem transfersLoop_spec (tol : ℚ) (htol : 0 ≤ tol) :
    ∀ fuel P R i j acc ts P2 R2 i2 j2,
    LoopHyp tol P R i j fuel →
    transfersLoop fuel P R i j tol acc = (ts, P2, R2, i2, j2) →
    LoopConc tol P R i j acc ts P2 R2 i2 j2 := by
  intro fuel
  induction fuel with
  | zero =>
    intro P R i j acc ts P2 R2 i2 j2 hyp heq
    simp only [transfersLoop, Prod.mk.injEq] at heq
    obtain ⟨rfl, rfl, rfl, rfl, rfl⟩ := heq
    have hip : i = P.length := by
      have := hyp.fuelOk
      have := hyp.hi
      omega
    exact {
      lenP := rfl, lenR := rfl
      nameP := fun k => rfl, nameR := fun k => rfl
      exit2 := Or.inl hip
      donePf := fun k hk hki => hyp.doneP k hki hk
      curPf := fun k hk hik => hyp.curP k hik hk
      doneRf := fun k hk hkj => hyp.doneR k hkj hk
      curRf := fun k hk hjk => hyp.curR k hjk hk
      flowP := fun k _ => by ring
      flowR := fun k _ => by ring
      otherP := fun g _ => rfl
      otherR := fun g _ => rfl
      conserve := by ring }
  | succ n ih =>
    intro P R i j acc ts P2 R2 i2 j2 hyp heq
    by_cases hij : i < P.length ∧ j < R.length
    · rw [transfersLoop_step n P R i j tol acc hij] at heq
      have hpa : tol < (P.getD i default).2 := hyp.curP i le_rfl hij.1
      have hra : tol < (R.getD j default).2 := hyp.curR j le_rfl hij.2
      have hcp : IsCents (P.getD i default).2 := hyp.centsP i hij.1
      have hcr : IsCents (R.getD j default).2 := hyp.centsR j hij.2
      have hcmin : IsCents (min (P.getD i default).2 (R.getD j default).2) := hcp.min hcr
      have hpa2 : round2 ((P.getD i default).2 -
          round2 (min (P.getD i default).2 (R.getD j default).2)) =
          (P.getD i default).2 - min (P.getD i default).2 (R.getD j default).2 := by
        rw [round2_cents hcmin]
        exact round2_cents (hcp.sub hcmin)
      have hra2 : round2 ((R.getD j default).2 -
          round2 (min (P.getD i default).2 (R.getD j default).2)) =
          (R.getD j default).2 - min (P.getD i default).2 (R.getD j default).2 := by
        rw [round2_cents hcmin]
        exact round2_cents (hcr.sub hcmin)
      have hamt : round2 (min (P.getD i default).2 (R.getD j default).2) =
          min (P.getD i default).2 (R.getD j default).2 := round2_cents hcmin
      have hamt_gt : tol < min (P.getD i default).2 (R.getD j default).2 :=
        lt_min hpa hra
      rw [hpa2, hra2, hamt, if_pos (le_of_lt hamt_gt)] at heq
      have hsub_p_nonneg : 0 ≤ (P.getD i default).2 -
          min (P.getD i default).2 (R.getD j default).2 :=
        sub_nonneg.mpr (min_le_left _ _)
      have hsub_r_nonneg : 0 ≤ (R.getD j default).2 -
          min (P.getD i default).2 (R.getD j default).2 :=
        sub_nonneg.mpr (min_le_right _ _)
      generalize hI : (if (P.getD i default).2 -
          min (P.getD i default).2 (R.getD j default).2 ≤ tol then i + 1 else i) = iN at heq
      generalize hJ : (if (R.getD j default).2 -
          min (P.getD i default).2 (R.getD j default).2 ≤ tol then j + 1 else j) = jN at heq
      have hIiff : (iN = i + 1 ∧ (P.getD i default).2 -
            min (P.getD i default).2 (R.getD j default).2 ≤ tol) ∨
          (iN = i ∧ tol < (P.getD i default).2 -
            min (P.getD i default).2 (R.getD j default).2) := by
        rw [← hI]
        split_ifs with h
        · exact Or.inl ⟨rfl, h⟩
        · exact Or.inr ⟨rfl, lt_of_not_le h⟩
      have hJiff : (jN = j + 1 ∧ (R.getD j default).2 -
            min (P.getD i default).2 (R.getD j default).2 ≤ tol) ∨
          (jN = j ∧ tol < (R.getD j default).2 -
            min (P.getD i default).2 (R.getD j default).2) := by
        rw [← hJ]
        split_ifs with h
        · exact Or.inl ⟨rfl, h⟩
        · exact Or.inr ⟨rfl, lt_of_not_le h⟩
      have hadvance : iN = i + 1 ∨ jN = j + 1 := by
        rcases le_total (P.getD i default).2 (R.getD j default).2 with hle | hle
        · left
          rw [← hI, if_pos]
          rw [min_eq_left hle]
          simpa using htol
        · right
          rw [← hJ, if_pos]
          rw [min_eq_right hle]
          simpa using htol
      have hPmem : P.getD i default ∈ P := by
        rw [List.getD_eq_getElem?_getD, List.getElem?_eq_getElem hij.1]
        exact List.getElem_mem _
      have hRmem : R.getD j default ∈ R := by
        rw [List.getD_eq_getElem?_getD, List.getElem?_eq_getElem hij.2]
        exact List.getElem_mem _
      have hyp2 : LoopHyp tol
          (P.set i ((P.getD i default).1, (P.getD i default).2 -
            min (P.getD i default).2 (R.getD j default).2))
          (R.set j ((R.getD j default).1, (R.getD j default).2 -
            min (P.getD i default).2 (R.getD j default).2)) iN jN n := by
        refine {
          nodupP := by rw [map_fst_set]; exact hyp.nodupP
          nodupR := by rw [map_fst_set]; exact hyp.nodupR
          centsP := ?_, centsR := ?_, hi := ?_, hj := ?_
          doneP := ?_, curP := ?_, doneR := ?_, curR := ?_, fuelOk := ?_ }
        · intro k hk
          rw [List.length_set] at hk
          by_cases hki : k = i
          · subst hki
            rw [getD_set_self _ _ _ hk]
            exact hcp.sub hcmin
          · rw [getD_set_ne _ _ _ _ hki]
            exact hyp.centsP k hk
        · intro k hk
          rw [List.length_set] at hk
          by_cases hkj : k = j
          · subst hkj
            rw [getD_set_self _ _ _ hk]
            exact hcr.sub hcmin
          · rw [getD_set_ne _ _ _ _ hkj]
            exact hyp.centsR k hk
        · rw [List.length_set]
          rcases hIiff with ⟨h, -⟩ | ⟨h, -⟩ <;> omega
        · rw [List.length_set]
          rcases hJiff with ⟨h, -⟩ | ⟨h, -⟩ <;> omega
        · intro k hk hklen
          rw [List.length_set] at hklen
          by_cases hki : k = i
          · subst hki
            rw [getD_set_self _ _ _ hklen]
            rcases hIiff with ⟨hiv, hb⟩ | ⟨hiv, -⟩
            · exact ⟨hsub_p_nonneg, hb⟩
            · omega
          · rw [getD_set_ne _ _ _ _ hki]
            rcases hIiff with ⟨hiv, -⟩ | ⟨hiv, -⟩
            · exact hyp.doneP k (by omega) hklen
            · exact hyp.doneP k (by omega) hklen
        · intro k hk hklen
          rw [List.length_set] at hklen
          by_cases hki : k = i
          · subst hki
            rw [getD_set_self _ _ _ hklen]
            rcases hIiff with ⟨hiv, -⟩ | ⟨hiv, hb⟩
            · omega
            · exact hb
          · rw [getD_set_ne _ _ _ _ hki]
            refine hyp.curP k ?_ hklen
            rcases hIiff with ⟨hiv, -⟩ | ⟨hiv, -⟩ <;> omega
        · intro k hk hklen
          rw [List.length_set] at hklen
          by_cases hkj : k = j
          · subst hkj
            rw [getD_set_self _ _ _ hklen]
            rcases hJiff with ⟨hjv, hb⟩ | ⟨hjv, -⟩
            · exact ⟨hsub_r_nonneg, hb⟩
            · omega
          · rw [getD_set_ne _ _ _ _ hkj]
            rcases hJiff with ⟨hjv, -⟩ | ⟨hjv, -⟩
            · exact hyp.doneR k (by omega) hklen
            · exact hyp.doneR k (by omega) hklen
        · intro k hk hklen
          rw [List.length_set] at hklen
          by_cases hkj : k = j
          · subst hkj
            rw [getD_set_self _ _ _ hklen]
            rcases hJiff with ⟨hjv, -⟩ | ⟨hjv, hb⟩
            · omega
            · exact hb
          · rw [getD_set_ne _ _ _ _ hkj]
            refine hyp.curR k ?_ hklen
            rcases hJiff with ⟨hjv, -⟩ | ⟨hjv, -⟩ <;> omega
        · rw [List.length_set, List.length_set]
          have hf := hyp.fuelOk
          have h1 := hij.1
          have h2 := hij.2
          rcases hadvance with h | h <;>
            rcases hIiff with ⟨hiv, -⟩ | ⟨hiv, -⟩ <;>
            rcases hJiff with ⟨hjv, -⟩ | ⟨hjv, -⟩ <;>
            omega
      have conc := ih _ _ iN jN _ ts P2 R2 i2 j2 hyp2 heq
      have hP2name : ∀ k, ((P.set i ((P.getD i default).1, (P.getD i default).2 -
          min (P.getD i default).2 (R.getD j default).2)).getD k default).1 =
          (P.getD k default).1 := by
        intro k
        by_cases hki : k = i
        · subst hki
          rw [getD_set_self _ _ _ hij.1]
        · rw [getD_set_ne _ _ _ _ hki]
      have hR2name : ∀ k, ((R.set j ((R.getD j default).1, (R.getD j default).2 -
          min (P.getD i default).2 (R.getD j default).2)).getD k default).1 =
          (R.getD k default).1 := by
        intro k
        by_cases hkj : k = j
        · subst hkj
          rw [getD_set_self _ _ _ hij.2]
        · rw [getD_set_ne _ _ _ _ hkj]
      refine {
        lenP := by rw [conc.lenP, List.length_set]
        lenR := by rw [conc.lenR, List.length_set]
        nameP := fun k => by rw [conc.nameP k, hP2name k]
        nameR := fun k => by rw [conc.nameR k, hR2name k]
        exit2 := by
          rcases conc.exit2 with h | h
          · left
            rw [h, List.length_set]
          · right
            rw [h, List.length_set]
        donePf := fun k hk hki2 => conc.donePf k (by rw [List.length_set]; exact hk) hki2
        curPf := fun k hk hik2 => conc.curPf k (by rw [List.length_set]; exact hk) hik2
        doneRf := fun k hk hkj2 => conc.doneRf k (by rw [List.length_set]; exact hk) hkj2
        curRf := fun k hk hjk2 => conc.curRf k (by rw [List.length_set]; exact hk) hjk2
        flowP := ?_, flowR := ?_, otherP := ?_, otherR := ?_, conserve := ?_ }
      · intro k hk
        have hflow := conc.flowP k (by rw [List.length_set]; exact hk)
        rw [hP2name k] at hflow
        rw [hflow, sumFrom_append_single]
        by_cases hki : k = i
        · subst hki
          rw [if_pos rfl, getD_set_self _ _ _ hij.1]
          ring
        · rw [getD_set_ne _ _ _ _ hki]
          rw [if_neg (nodup_fst_getD_ne P hyp.nodupP i k hij.1 hk (fun he => hki he.symm))]
          ring
      · intro k hk
        have hflow := conc.flowR k (by rw [List.length_set]; exact hk)
        rw [hR2name k] at hflow
        rw [hflow, sumTo_append_single]
        by_cases hkj : k = j
        · subst hkj
          rw [if_pos rfl, getD_set_self _ _ _ hij.2]
          ring
        · rw [getD_set_ne _ _ _ _ hkj]
          rw [if_neg (nodup_fst_getD_ne R hyp.nodupR j k hij.2 hk (fun he => hkj he.symm))]
          ring
      · intro g hg
        have hg2 : g ∉ (P.set i ((P.getD i default).1, (P.getD i default).2 -
            min (P.getD i default).2 (R.getD j default).2)).map Prod.fst := by
          rw [map_fst_set]
          exact hg
        rw [conc.otherP g hg2, sumFrom_append_single]
        rw [if_neg (fun he : (P.getD i default).1 = g =>
          hg (he ▸ List.mem_map_of_mem Prod.fst hPmem))]
        ring
      · intro g hg
        have hg2 : g ∉ (R.set j ((R.getD j default).1, (R.getD j default).2 -
            min (P.getD i default).2 (R.getD j default).2)).map Prod.fst := by
          rw [map_fst_set]
          exact hg
        rw [conc.otherR g hg2, sumTo_append_single]
        rw [if_neg (fun he : (R.getD j default).1 = g =>
          hg (he ▸ List.mem_map_of_mem Prod.fst hRmem))]
        ring
      · have hsp : sndSum (P.set i ((P.getD i default).1, (P.getD i default).2 -
            min (P.getD i default).2 (R.getD j default).2)) =
            sndSum P - min (P.getD i default).2 (R.getD j default).2 := by
          rw [sndSum_set _ _ _ _ hij.1]
          ring
        have hsr : sndSum (R.set j ((R.getD j default).1, (R.getD j default).2 -
            min (P.getD i default).2 (R.getD j default).2)) =
            sndSum R - min (P.getD i default).2 (R.getD j default).2 := by
          rw [sndSum_set _ _ _ _ hij.2]
          ring
        have hcv := conc.conserve
        rw [hsp, hsr] at hcv
        linarith
    · have hstop : transfersLoop (n + 1) P R i j tol acc = (acc, P, R, i, j) := by
        rw [transfersLoop, if_neg hij]
      rw [hstop, Prod.mk.injEq] at heq
      obtain ⟨rfl, rfl, rfl, rfl, rfl⟩ := heq
      have hexit : i = P.length ∨ j = R.length := by
        rcases not_and_or.mp hij with h | h
        · left
          have := hyp.hi
          omega
        · right
          have := hyp.hj
          omega
      exact {
        lenP := rfl, lenR := rfl
        nameP := fun k => rfl, nameR := fun k => rfl
        exit2 := hexit
        donePf := fun k hk hki => hyp.doneP k hki hk
        curPf := fun k hk hik => hyp.curP k hik hk
        doneRf := fun k hk hkj => hyp.doneR k hkj hk
        curRf := fun k hk hjk => hyp.curR k hjk hk
        flowP := fun k _ => by ring
        flowR := fun k _ => by ring
        otherP := fun g _ => rfl
        otherR := fun g _ => rfl
        conserve := by ring }

theorem mem_to_getD (l : List (String × ℚ)) (x : String × ℚ) (h : x ∈ l) :
    ∃ k, k < l.length ∧ l.getD k default = x := by
  obtain ⟨n, hn, he⟩ := List.mem_iff_getElem.mp h
  refine ⟨n, hn, ?_⟩
  rw [List.getD_eq_getElem?_getD, List.getElem?_eq_getElem hn]
  simpa using he

theorem getD_to_mem (l : List (String × ℚ)) (k : ℕ) (h : k < l.length) :
    l.getD k default ∈ l := by
  rw [List.getD_eq_getElem?_getD, List.getElem?_eq_getElem h]
  exact List.getElem_mem _

theorem nodup_fst_eq (l : List (String × ℚ)) (hnd : (l.map Prod.fst).Nodup)
    (g : String) (a b : ℚ) (ha : (g, a) ∈ l) (hb : (g, b) ∈ l) : a = b := by
  induction l with
  | nil => cases ha
  | cons p t ih =>
    obtain ⟨g0, c⟩ := p
    simp only [List.map_cons] at hnd
    have hnd2 := List.nodup_cons.mp hnd
    rcases List.mem_cons.mp ha with ha1 | ha1 <;> rcases List.mem_cons.mp hb with hb1 | hb1
    · injection ha1 with h1 h2
      injection hb1 with h3 h4
      rw [h2, h4]
    · injection ha1 with h1 h2
      exact absurd (h1 ▸ List.mem_map_of_mem Prod.fst hb1) hnd2.1
    · injection hb1 with h3 h4
      exact absurd (h3 ▸ List.mem_map_of_mem Prod.fst ha1) hnd2.1
    · exact ih hnd2.2 ha1 hb1

theorem sndSum_cons (a : String × ℚ) (l : List (String × ℚ)) :
    sndSum (a :: l) = a.2 + sndSum l := by
  simp [sndSum]

theorem sndSum_map_neg (l : List (String × ℚ)) :
    sndSum (l.map (fun p => (p.1, -p.2))) = -sndSum l := by
  induction l with
  | nil => simp [sndSum]
  | cons a t ih =>
    rw [List.map_cons, sndSum_cons, sndSum_cons, ih]
    ring

theorem abs_sndSum_le (l : List (String × ℚ)) (c : ℚ) (hc : 0 ≤ c)
    (h : ∀ p ∈ l, |p.2| ≤ c) : |sndSum l| ≤ l.length * c := by
  induction l with
  | nil => simp [sndSum, hc]
  | cons a t ih =>
    have h0 : |a.2| ≤ c := h a (List.mem_cons_self a t)
    have ht : |sndSum t| ≤ t.length * c := ih (fun p hp => h p (List.mem_cons_of_mem a hp))
    have habs : |sndSum (a :: t)| ≤ |a.2| + |sndSum t| := by
      rw [sndSum_cons]
      exact abs_add _ _
    refine le_trans habs ?_
    simp only [List.length_cons]
    push_cast
    linarith

theorem settle_partition (tol : ℚ) (htol : 0 ≤ tol) (l : List (String × ℚ)) :
    sndSum (l.filter (fun p => decide (tol < p.2))) +
      sndSum (l.filter (fun p => decide (p.2 < -tol))) +
      sndSum (l.filter (fun p => !(decide (tol < p.2)) && !(decide (p.2 < -tol)))) =
      sndSum l ∧
    (l.filter (fun p => decide (tol < p.2))).length +
      (l.filter (fun p => decide (p.2 < -tol))).length +
      (l.filter (fun p => !(decide (tol < p.2)) && !(decide (p.2 < -tol)))).length =
      l.length := by
  induction l with
  | nil => simp [sndSum]
  | cons a t ih =>
    obtain ⟨ihs, ihl⟩ := ih
    rw [List.filter_cons, List.filter_cons, List.filter_cons]
    by_cases h1 : tol < a.2
    · have h2 : ¬ a.2 < -tol := by linarith
      rw [if_pos (by simp [h1]), if_neg (by simp [h2]), if_neg (by simp [h1])]
      constructor
      · rw [sndSum_cons, sndSum_cons]
        linarith
      · simp only [List.length_cons]
        omega
    · by_cases h2 : a.2 < -tol
      · rw [if_neg (by simp [h1]), if_pos (by simp [h2]), if_neg (by simp [h2])]
        constructor
        · rw [sndSum_cons, sndSum_cons]
          linarith
        · simp only [List.length_cons]
          omega
      · rw [if_neg (by simp [h1]), if_neg (by simp [h2]), if_pos (by simp [h1, h2])]
        constructor
        · rw [sndSum_cons, sndSum_cons]
          linarith
        · simp only [List.length_cons]
          omega

/-- Claim C6, amended.  For every settlement map with distinct group
names whose deltas are whole cents and sum to zero, each group's net
transfer flow differs from its settlement delta by at most N cents,
where N is the number of groups (each advanced payer or receiver can
strand up to one cent, and the stranded cents accumulate against the
groups served last, so the per-group error is bounded by the group count
times the tolerance rather than by the tolerance itself). -/
theorem c6_amended_flow_conservation (settlements : List (String × ℚ))
    (hnd : (settlements.map Prod.fst).Nodup)
    (hcents : ∀ p ∈ settlements, IsCents p.2)
    (hzero : sndSum settlements = 0)
    (g : String) (s : ℚ) (hmem : (g, s) ∈ settlements) :
    |netFlow (compute_transfers settlements (1 / 100)) g - s| ≤
      settlements.length * (1 / 100) := by
  set tol : ℚ := 1 / 100 with htoldef
  have htol : (0 : ℚ) ≤ tol := by norm_num [htoldef]
  have hN1 : (1 : ℚ) ≤ settlements.length := by
    exact_mod_cast List.length_pos.mpr (List.ne_nil_of_mem hmem)
  have htolN : tol ≤ settlements.length * tol := by nlinarith
  unfold compute_transfers
  simp only []
  set pf := settlements.filter (fun p => decide (tol < p.2)) with hpfdef
  set rf := settlements.filter (fun p => decide (p.2 < -tol)) with hrfdef
  set sf := settlements.filter
    (fun p => !(decide (tol < p.2)) && !(decide (p.2 < -tol))) with hsfdef
  set P := sortDesc pf with hPdef
  set R := sortDesc (rf.map (fun p => (p.1, -p.2))) with hRdef
  have hPperm : List.Perm P pf := List.perm_insertionSort _ _
  have hRperm : List.Perm R (rf.map (fun p => (p.1, -p.2))) := List.perm_insertionSort _ _
  have hpfnd : (pf.map Prod.fst).Nodup := hnd.sublist ((List.filter_sublist _).map _)
  have hrfnd : (rf.map Prod.fst).Nodup := hnd.sublist ((List.filter_sublist _).map _)
  have hrfm_fst : (rf.map (fun p => (p.1, -p.2))).map Prod.fst = rf.map Prod.fst := by
    rw [List.map_map]
    exact List.map_congr_left (fun p _ => rfl)
  have hPnd : (P.map Prod.fst).Nodup := ((hPperm.map Prod.fst).nodup_iff).mpr hpfnd
  have hRnd : (R.map Prod.fst).Nodup := by
    refine ((hRperm.map Prod.fst).nodup_iff).mpr ?_
    rw [hrfm_fst]
    exact hrfnd
  have hPmem_set : ∀ x, x ∈ P → x ∈ settlements ∧ tol < x.2 := by
    intro x hx
    have hxpf : x ∈ pf := hPperm.mem_iff.mp hx
    have := List.mem_filter.mp hxpf
    exact ⟨this.1, by simpa using this.2⟩
  have hRmem_set : ∀ x, x ∈ R → ∃ q ∈ settlements, q.2 < -tol ∧ x = (q.1, -q.2) := by
    intro x hx
    have hxm : x ∈ rf.map (fun p => (p.1, -p.2)) := hRperm.mem_iff.mp hx
    obtain ⟨q, hq, hqe⟩ := List.mem_map.mp hxm
    have := List.mem_filter.mp hq
    exact ⟨q, this.1, by simpa using this.2, hqe.symm⟩
  rcases hEq : transfersLoop (P.length + R.length) P R 0 0 tol [] with
    ⟨ts, P2, R2, i2, j2⟩
  have hyp : LoopHyp tol P R 0 0 (P.length + R.length) := by
    refine {
      nodupP := hPnd, nodupR := hRnd
      centsP := ?_, centsR := ?_
      hi := Nat.zero_le _, hj := Nat.zero_le _
      doneP := fun k hk _ => absurd hk (Nat.not_lt_zero k)
      doneR := fun k hk _ => absurd hk (Nat.not_lt_zero k)
      curP := ?_, curR := ?_
      fuelOk := by omega }
    · intro k hk
      exact hcents _ (hPmem_set _ (getD_to_mem P k hk)).1
    · intro k hk
      obtain ⟨q, hq, -, hqe⟩ := hRmem_set _ (getD_to_mem R k hk)
      rw [hqe]
      exact (hcents q hq).neg
    · intro k _ hk
      exact (hPmem_set _ (getD_to_mem P k hk)).2
    · intro k _ hk
      obtain ⟨q, -, hqlt, hqe⟩ := hRmem_set _ (getD_to_mem R k hk)
      rw [hqe]
      simpa using by linarith
  have conc := transfersLoop_spec tol htol (P.length + R.length) P R 0 0 [] ts P2 R2
    i2 j2 hyp hEq
  have hpart := settle_partition tol htol settlements
  have hPsum : sndSum P = sndSum pf := (hPperm.map Prod.snd).sum_eq
  have hRsum : sndSum R = -sndSum rf := by
    have h1 : sndSum R = sndSum (rf.map (fun p => (p.1, -p.2))) :=
      (hRperm.map Prod.snd).sum_eq
    rw [h1, sndSum_map_neg]
  have hsmall_abs : |sndSum sf| ≤ sf.length * tol := by
    apply abs_sndSum_le sf tol htol
    intro p hp
    have := (List.mem_filter.mp hp).2
    simp only [Bool.and_eq_true, Bool.not_eq_true', decide_eq_false_iff_not, not_lt] at this
    rw [abs_le]
    constructor
    · linarith [this.2]
    · exact this.1
  have hlenQ : (pf.length : ℚ) + rf.length + sf.length = settlements.length := by
    rw [hpfdef, hrfdef, hsfdef]
    exact_mod_cast hpart.2
  have hsumsQ : sndSum pf + sndSum rf + sndSum sf = 0 := by
    rw [hpfdef, hrfdef, hsfdef, hpart.1, hzero]
  have hP2nonneg : ∀ k, k < P2.length → 0 ≤ (P2.getD k default).2 := by
    intro k hk
    rw [conc.lenP] at hk
    by_cases hki2 : k < i2
    · exact (conc.donePf k hk hki2).1
    · exact le_trans htol (le_of_lt (conc.curPf k hk (le_of_not_lt hki2)))
  have hR2nonneg : ∀ k, k < R2.length → 0 ≤ (R2.getD k default).2 := by
    intro k hk
    rw [conc.lenR] at hk
    by_cases hkj2 : k < j2
    · exact (conc.doneRf k hk hkj2).1
    · exact le_trans htol (le_of_lt (conc.curRf k hk (le_of_not_lt hkj2)))
  have hconserve : sndSum P - sndSum P2 = sndSum R - sndSum R2 := conc.conserve
  have hdisjointPR : ∀ gg, gg ∈ P.map Prod.fst → gg ∈ R.map Prod.fst → False := by
    intro gg hgP hgR
    obtain ⟨x, hx, hx1⟩ := List.mem_map.mp hgP
    obtain ⟨y, hy, hy1⟩ := List.mem_map.mp hgR
    obtain ⟨hxs, hxlt⟩ := hPmem_set x hx
    obtain ⟨q, hqs, hqlt, hqe⟩ := hRmem_set y hy
    have hxmem : (gg, x.2) ∈ settlements := by
      rw [← hx1]
      simpa using hxs
    have hqfst : q.1 = gg := by
      rw [hqe] at hy1
      simpa using hy1
    have hqmem : (gg, q.2) ∈ settlements := by
      rw [← hqfst]
      simpa using hqs
    have := nodup_fst_eq settlements hnd gg x.2 q.2 hxmem hqmem
    linarith
  have hsumFromNil : ∀ gg, sumFrom [] gg = 0 := fun gg => rfl
  have hsumToNil : ∀ gg, sumTo [] gg = 0 := fun gg => rfl
  show |netFlow ts g - s| ≤ settlements.length * tol
  by_cases hA : tol < s
  · have hmempf : (g, s) ∈ pf := List.mem_filter.mpr ⟨hmem, by simpa using hA⟩
    have hmemP : (g, s) ∈ P := hPperm.mem_iff.mpr hmempf
    obtain ⟨k, hkP, hgetk⟩ := mem_to_getD P _ hmemP
    have hflow := conc.flowP k hkP
    rw [hgetk] at hflow
    simp only [hsumFromNil] at hflow
    have hgnotR : g ∉ R.map Prod.fst := by
      intro hgR
      refine hdisjointPR g ?_ hgR
      have : (P.getD k default).1 = g := by rw [hgetk]
      rw [← this]
      exact List.mem_map_of_mem Prod.fst (getD_to_mem P k hkP)
    have hsumTo : sumTo ts g = 0 := by
      rw [conc.otherR g hgnotR]
      exact hsumToNil g
    have hres_nonneg : 0 ≤ (P2.getD k default).2 :=
      hP2nonneg k (by rw [conc.lenP]; exact hkP)
    have hflow2 : netFlow ts g - s = -(P2.getD k default).2 := by
      unfold netFlow
      rw [hsumTo, hflow]
      ring
    rw [hflow2, abs_neg, abs_of_nonneg hres_nonneg]
    by_cases hki2 : k < i2
    · have := (conc.donePf k hkP hki2).2
      linarith
    · rcases conc.exit2 with hx | hx
      · omega
      · have hres_le : (P2.getD k default).2 ≤ sndSum P2 :=
          getD_le_sndSum P2 k (by rw [conc.lenP]; exact hkP) hP2nonneg
        have hR2le : sndSum R2 ≤ R2.length * tol := by
          apply sndSum_le_of R2 tol _ htol
          intro k2 hk2
          refine (conc.doneRf k2 (by rw [← conc.lenR]; exact hk2) ?_).2
          rw [hx]
          rw [conc.lenR] at hk2
          exact hk2
        have hR2len : (R2.length : ℚ) = rf.length := by
          have hl := hRperm.length_eq
          rw [List.length_map] at hl
          rw [conc.lenR, hl]
        have hPfsum : sndSum P2 = sndSum P - sndSum R + sndSum R2 := by linarith
        have hsmall_bound : -sndSum sf ≤ |sndSum sf| := neg_le_abs _
        have hsflen_nonneg : (0 : ℚ) ≤ pf.length := by positivity
        rw [hPsum, hRsum] at hPfsum
        have hsum2 : sndSum P2 ≤ sf.length * tol + rf.length * tol := by
          have h1 : sndSum pf - -sndSum rf = -sndSum sf := by linarith
          rw [h1] at hPfsum
          rw [hR2len] at hR2le
          linarith
        have hlen2 : (sf.length : ℚ) + rf.length ≤ settlements.length := by
          linarith
        have hfinal : (sf.length : ℚ) * tol + rf.length * tol ≤
            settlements.length * tol := by
          calc (sf.length : ℚ) * tol + rf.length * tol
              = ((sf.length : ℚ) + rf.length) * tol := by ring
            _ ≤ settlements.length * tol := mul_le_mul_of_nonneg_right hlen2 htol
        linarith
  · by_cases hB : s < -tol
    · have hmemrf : (g, s) ∈ rf := List.mem_filter.mpr ⟨hmem, by simpa using hB⟩
      have hmemR : (g, -s) ∈ R := by
        apply hRperm.mem_iff.mpr
        exact List.mem_map.mpr ⟨(g, s), hmemrf, rfl⟩
      obtain ⟨k, hkR, hgetk⟩ := mem_to_getD R _ hmemR
      have hflow := conc.flowR k hkR
      rw [hgetk] at hflow
      simp only [hsumToNil] at hflow
      have hgnotP : g ∉ P.map Prod.fst := by
        intro hgP
        refine hdisjointPR g hgP ?_
        have : (R.getD k default).1 = g := by rw [hgetk]
        rw [← this]
        exact List.mem_map_of_mem Prod.fst (getD_to_mem R k hkR)
      have hsumFrom : sumFrom ts g = 0 := by
        rw [conc.otherP g hgnotP]
        exact hsumFromNil g
      have hres_nonneg : 0 ≤ (R2.getD k default).2 :=
        hR2nonneg k (by rw [conc.lenR]; exact hkR)
      have hflow2 : netFlow ts g - s = (R2.getD k default).2 := by
        unfold netFlow
        rw [hsumFrom, hflow]
        ring
      rw [hflow2, abs_of_nonneg hres_nonneg]
      by_cases hkj2 : k < j2
      · have := (conc.doneRf k hkR hkj2).2
        linarith
      · rcases conc.exit2 with hx | hx
        · have hres_le : (R2.getD k default).2 ≤ sndSum R2 :=
            getD_le_sndSum R2 k (by rw [conc.lenR]; exact hkR) hR2nonneg
          have hP2le : sndSum P2 ≤ P2.length * tol := by
            apply sndSum_le_of P2 tol _ htol
            intro k2 hk2
            refine (conc.donePf k2 (by rw [← conc.lenP]; exact hk2) ?_).2
            rw [hx]
            rw [conc.lenP] at hk2
            exact hk2
          have hP2len : (P2.length : ℚ) = pf.length := by
            rw [conc.lenP, hPperm.length_eq]
          have hRfsum : sndSum R2 = sndSum R - sndSum P + sndSum P2 := by linarith
          have hsmall_bound : sndSum sf ≤ |sndSum sf| := le_abs_self _
          rw [hPsum, hRsum] at hRfsum
          have hsum2 : sndSum R2 ≤ sf.length * tol + pf.length * tol := by
            have h1 : -sndSum rf - sndSum pf = sndSum sf := by linarith
            rw [hP2len] at hP2le
            linarith
          have hrflen_nonneg : (0 : ℚ) ≤ rf.length := by positivity
          have hlen2 : (sf.length : ℚ) + pf.length ≤ settlements.length := by
            linarith
          have hfinal : (sf.length : ℚ) * tol + pf.length * tol ≤
              settlements.length * tol := by
            calc (sf.length : ℚ) * tol + pf.length * tol
                = ((sf.length : ℚ) + pf.length) * tol := by ring
              _ ≤ settlements.length * tol := mul_le_mul_of_nonneg_right hlen2 htol
          linarith
        · omega
    · have hgnotP : g ∉ P.map Prod.fst := by
        intro hgP
        obtain ⟨x, hx, hx1⟩ := List.mem_map.mp hgP
        obtain ⟨hxs, hxlt⟩ := hPmem_set x hx
        have hxmem : (g, x.2) ∈ settlements := by
          rw [← hx1]
          simpa using hxs
        have := nodup_fst_eq settlements hnd g x.2 s hxmem hmem
        linarith
      have hgnotR : g ∉ R.map Prod.fst := by
        intro hgR
        obtain ⟨y, hy, hy1⟩ := List.mem_map.mp hgR
        obtain ⟨q, hqs, hqlt, hqe⟩ := hRmem_set y hy
        have hqfst : q.1 = g := by
          rw [hqe] at hy1
          simpa using hy1
        have hqmem : (g, q.2) ∈ settlements := by
          rw [← hqfst]
          simpa using hqs
        have := nodup_fst_eq settlements hnd g q.2 s hqmem hmem
        linarith
      have h1 : sumFrom ts g = 0 := by
        rw [conc.otherP g hgnotP]
        exact hsumFromNil g
      have h2 : sumTo ts g = 0 := by
        rw [conc.otherR g hgnotR]
        exact hsumToNil g
      have hflow2 : netFlow ts g - s = -s := by
        unfold netFlow
        rw [h1, h2]
        ring
      rw [hflow2, abs_neg]
      have habs : |s| ≤ tol := by
        rw [abs_le]
        constructor
        · linarith [not_lt.mp hB]
        · exact not_lt.mp hA
      linarith

/-- Witness for c6_amended_flow_conservation at Scenario C's settlement
deltas (460, -230, -230): each group's flow matches its delta within
3 cents. -/
theorem c6_witness :
    ((([("Gabe", 460), ("Trev", -230), ("Orso", -230)] : List (String × ℚ)).map
      Prod.fst).Nodup) ∧
    sndSum [("Gabe", 460), ("Trev", -230), ("Orso", -230)] = 0 ∧
    |netFlow (compute_transfers [("Gabe", 460), ("Trev", -230), ("Orso", -230)] (1 / 100))
      "Trev" - (-230)| ≤ 3 * (1 / 100) := by
  refine ⟨by decide, by with_unfolding_all decide, ?_⟩
  have h := c6_amended_flow_conservation [("Gabe", 460), ("Trev", -230), ("Orso", -230)]
    (by decide)
    (by
      intro p hp
      simp only [List.mem_cons, List.not_mem_nil, or_false] at hp
      rcases hp with h | h | h
      · rw [h]; exact ⟨46000, by norm_num⟩
      · rw [h]; exact ⟨-23000, by norm_num⟩
      · rw [h]; exact ⟨-23000, by norm_num⟩)
    (by with_unfolding_all decide)
    "Trev" (-230) (by simp)
  simpa using h

theorem one_div_nat_ne_45 (n : ℕ) : (1 : ℚ) / n ≠ 45 / 100 := by
  intro h
  rcases Nat.eq_zero_or_pos n with h0 | hpos
  · rw [h0] at h
    norm_num at h
  · have hn : ((n : ℚ)) ≠ 0 := ne_of_gt (by exact_mod_cast hpos)
    rw [div_eq_div_iff hn (by norm_num : (100 : ℚ) ≠ 0)] at h
    have h2 : (100 : ℚ) = 45 * n := by linarith
    have h3 : (100 : ℕ) = 45 * n := by exact_mod_cast h2
    omega

theorem low_div_ne_45 (m : ℕ) : (80 : ℚ) / 100 / (m : ℚ) ≠ 45 / 100 := by
  intro h
  rcases Nat.eq_zero_or_pos m with h0 | hpos
  · rw [h0] at h
    norm_num at h
  · have hm : ((m : ℚ)) ≠ 0 := ne_of_gt (by exact_mod_cast hpos)
    rw [div_div] at h
    rw [div_eq_div_iff (mul_ne_zero (by norm_num) hm) (by norm_num : (100 : ℚ) ≠ 0)] at h
    have h2 : (8000 : ℚ) = 4500 * m := by linarith
    have h3 : (8000 : ℕ) = 4500 * m := by exact_mod_cast h2
    omega

theorem setK_mem_ne (l : List (String × ℚ)) (k : String) (v : ℚ) (p : String × ℚ)
    (hp : p ∈ l) (hne : ¬ p.1 = k) : p ∈ setK l k v := by
  unfold setK
  have h := List.mem_map_of_mem (fun q => if q.1 = k then (k, v) else q) hp
  simp only [if_neg hne] at h
  exact h

theorem setK_mem_self (l : List (String × ℚ)) (k : String) (v : ℚ) (p : String × ℚ)
    (hp : p ∈ l) (hk : p.1 = k) : (k, v) ∈ setK l k v := by
  unfold setK
  have h := List.mem_map_of_mem (fun q => if q.1 = k then (k, v) else q) hp
  simp only [if_pos hk] at h
  exact h

theorem rule4_has_15 (agents : List (String × AgentStats)) (bt : ℚ)
    (s : List (String × ℚ)) (h : rule4Result agents bt = some s) :
    (15 : ℚ) / 100 ∈ s.map Prod.snd := by
  unfold rule4Result at h
  simp only [] at h
  split at h
  · exact Option.noConfusion h
  · rename_i w hdw
    split at h
    · rename_i hc1
      split at h
      · exact Option.noConfusion h
      · rename_i m hfm
        split at h
        · rename_i hc2
          injection h with hs
          rw [← hs]
          have hmpred := List.find?_some hfm
          have hlowmem : (lowExposureAgents agents).headD "" ∈ lowExposureAgents agents := by
            cases hl : lowExposureAgents agents with
            | nil => exact absurd hl hc1.2.1
            | cons a t => simp
          have hwlow : ¬ (lowExposureAgents agents).headD "" = w := by
            intro he
            exact hc1.2.2 (he ▸ hlowmem)
          have hmlow : m ∉ lowExposureAgents agents := by
            by_contra hmm
            simp [hmm] at hmpred
          have hmlow2 : ¬ (lowExposureAgents agents).headD "" = m := by
            intro he
            exact hmlow (he ▸ hlowmem)
          have hlmemnames : (lowExposureAgents agents).headD "" ∈ agentNames agents :=
            lowExposure_subset agents hlowmem
          have h1 := List.mem_map_of_mem
            (fun n => (n, (1 : ℚ) / (agentNames agents).length)) hlmemnames
          have h2 := setK_mem_ne _ w (45 / 100) _ h1 hwlow
          have h3 := setK_mem_ne _ m (35 / 100) _ h2 hmlow2
          have h4 := setK_mem_self _ ((lowExposureAgents agents).headD "") (15 / 100) _ h3 rfl
          exact List.mem_map.mpr ⟨_, h4, rfl⟩
        · exact Option.noConfusion h
    · exact Option.noConfusion h

theorem splits_45_imp_15 (agents : List (String × AgentStats)) (bt : ℚ)
    (h45 : (45 : ℚ) / 100 ∈ (calculate_split_percentages agents bt).map Prod.snd) :
    (15 : ℚ) / 100 ∈ (calculate_split_percentages agents bt).map Prod.snd := by
  simp only [calculate_split_percentages] at h45 ⊢
  by_cases h0 : (agentNames agents).length = 0
  · rw [if_pos h0] at h45
    simp at h45
  · rw [if_neg h0] at h45 ⊢
    by_cases h3 : (agentNames agents).length ≠ 3
    · rw [if_pos h3] at h45
      exfalso
      simp only [List.map_map, List.mem_map, Function.comp_apply] at h45
      obtain ⟨n, -, hv⟩ := h45
      exact one_div_nat_ne_45 _ hv
    · rw [if_neg h3] at h45 ⊢
      cases hr4 : rule4Result agents bt with
      | some s =>
        simp only [hr4] at h45 ⊢
        exact rule4_has_15 agents bt s hr4
      | none =>
        exfalso
        simp only [hr4] at h45
        rcases hdw : dominantWinner agents bt with _ | w
        · simp only [hdw] at h45
          by_cases hlow : lowExposureAgents agents ≠ []
          · rw [if_pos hlow] at h45
            simp only [List.map_map, List.mem_map, Function.comp_apply] at h45
            obtain ⟨n, -, hv⟩ := h45
            split at hv
            · norm_num at hv
            · exact low_div_ne_45 _ hv
          · rw [if_neg hlow] at h45
            simp only [List.map_map, List.mem_map, Function.comp_apply] at h45
            obtain ⟨n, -, hv⟩ := h45
            exact one_div_nat_ne_45 _ hv
        · simp only [hdw] at h45
          by_cases hc : ¬ w = "" ∧ lowExposureAgents agents = []
          · rw [if_pos hc] at h45
            simp only [List.map_map, List.mem_map, Function.comp_apply] at h45
            obtain ⟨n, -, hv⟩ := h45
            split at hv <;> norm_num at hv
          · rw [if_neg hc] at h45
            by_cases hlow : lowExposureAgents agents ≠ []
            · rw [if_pos hlow] at h45
              simp only [List.map_map, List.mem_map, Function.comp_apply] at h45
              obtain ⟨n, -, hv⟩ := h45
              split at hv
              · norm_num at hv
              · exact low_div_ne_45 _ hv
            · rw [if_neg hlow] at h45
              simp only [List.map_map, List.mem_map, Function.comp_apply] at h45
              obtain ⟨n, -, hv⟩ := h45
              exact one_div_nat_ne_45 _ hv

theorem filter_val_cons (splits : List (String × ℚ)) (v : ℚ)
    (hv : v ∈ splits.map Prod.snd) :
    ∃ a t, (splits.filter (fun p => decide (p.2 = v))).map Prod.fst = a :: t := by
  obtain ⟨p, hp, hpv⟩ := List.mem_map.mp hv
  have hpf : p ∈ splits.filter (fun p => decide (p.2 = v)) :=
    List.mem_filter.mpr ⟨hp, by simp [hpv]⟩
  have hm : p.1 ∈ (splits.filter (fun p => decide (p.2 = v))).map Prod.fst :=
    List.mem_map_of_mem Prod.fst hpf
  exact List.exists_cons_of_ne_nil (List.ne_nil_of_mem hm)

theorem format_split_explanation_ok (stats : List (String × AgentStats)) (bt : ℚ) :
    ∃ s, format_split_explanation stats (calculate_split_percentages stats bt) bt =
      Except.ok s := by
  have hconv : ∀ v : ℚ,
      v ∈ (((calculate_split_percentages stats bt).map Prod.snd).dedup).insertionSort
        (fun a b => b ≤ a) →
      v ∈ (calculate_split_percentages stats bt).map Prod.snd :=
    fun v hv => List.mem_dedup.mp ((List.perm_insertionSort _ _).mem_iff.mp hv)
  unfold format_split_explanation
  simp only []
  by_cases h1 : ((((calculate_split_percentages stats bt).map Prod.snd).dedup).insertionSort
      (fun a b => b ≤ a)).length = 1
  · rw [if_pos h1]
    exact ⟨_, rfl⟩
  · rw [if_neg h1]
    by_cases h45 : (45 : ℚ) / 100 ∈
        (((calculate_split_percentages stats bt).map Prod.snd).dedup).insertionSort
          (fun a b => b ≤ a)
    · rw [if_pos h45]
      obtain ⟨a, t, hac⟩ := filter_val_cons _ _ (hconv _ h45)
      obtain ⟨b, u, hbc⟩ := filter_val_cons _ _ (splits_45_imp_15 stats bt (hconv _ h45))
      simp only [hac, hbc]
      exact ⟨_, rfl⟩
    · rw [if_neg h45]
      by_cases h20 : (20 : ℚ) / 100 ∈
          (((calculate_split_percentages stats bt).map Prod.snd).dedup).insertionSort
            (fun a b => b ≤ a)
      · rw [if_pos h20]
        obtain ⟨a, t, hac⟩ := filter_val_cons _ _ (hconv _ h20)
        simp only [hac]
        exact ⟨_, rfl⟩
      · rw [if_neg h20]
        by_cases h4030 : (40 : ℚ) / 100 ∈
            (((calculate_split_percentages stats bt).map Prod.snd).dedup).insertionSort
              (fun a b => b ≤ a) ∧ (30 : ℚ) / 100 ∈
            (((calculate_split_percentages stats bt).map Prod.snd).dedup).insertionSort
              (fun a b => b ≤ a)
        · rw [if_pos h4030]
          obtain ⟨a, t, hac⟩ := filter_val_cons _ _ (hconv _ h4030.1)
          simp only [hac]
          exact ⟨_, rfl⟩
        · rw [if_neg h4030]
          exact ⟨_, rfl⟩

theorem aggRows_ok (rows : List Row) (agents : List (String × AgentAgg)) (bt : ℚ)
    (habs : ∀ r ∈ rows, r.week_amount ≠ Amt.absent) :
    ∃ out, aggRows rows agents bt = Except.ok out := by
  induction rows generalizing agents bt with
  | nil => exact ⟨(agents, bt), rfl⟩
  | cons r rest ih =>
    have hr := habs r (List.mem_cons_self r rest)
    have hrest : ∀ x ∈ rest, x.week_amount ≠ Amt.absent :=
      fun x hx => habs x (List.mem_cons_of_mem r hx)
    cases hw : r.week_amount with
    | absent => exact absurd hw hr
    | null =>
      obtain ⟨out, hout⟩ := ih (addRowToAgents agents r.agent
        ⟨r, -0, if 0 < -(0 : ℚ) then "Request" else "Pay", |(-0 : ℚ)|⟩ (-0)) (bt + -0) hrest
      refine ⟨out, ?_⟩
      simp only [aggRows, rowWeekAmt, hw, Except.bind]
      exact hout
    | val q =>
      obtain ⟨out, hout⟩ := ih (addRowToAgents agents r.agent
        ⟨r, -q, if 0 < -q then "Request" else "Pay", |(-q : ℚ)|⟩ (-q)) (bt + -q) hrest
      refine ⟨out, ?_⟩
      simp only [aggRows, rowWeekAmt, hw, Except.bind]
      exact hout

theorem bind_ok_shift {α β : Type} (e : Except String α) (a : α) (f : α → Except String β)
    (ha : e = Except.ok a) (hf : ∃ b, f a = Except.ok b) :
    ∃ b, e >>= f = Except.ok b := by
  obtain ⟨b, hb⟩ := hf
  exact ⟨b, by rw [ha]; exact hb⟩

/-- Claim C8, amended.  The aggregation step tolerates rows whose amount
is present but null: when no row has the amount key absent (null values
allowed), compute_dashboard completes and returns a result instead of
raising.  (An absent key instead raises KeyError, see the counterexample;
the bubble adjuster conversely tolerates an absent key and raises on
null.) -/
theorem c8_amended_null_tolerated (rows : List Row)
    (habs : ∀ r ∈ rows, r.week_amount ≠ Amt.absent) :
    ∃ res, computeDashboard rows none = Except.ok res := by
  obtain ⟨agg, hagg⟩ := aggRows_ok rows [] 0 habs
  obtain ⟨agents, bt⟩ := agg
  unfold computeDashboard
  refine bind_ok_shift _ (none, rows, "") _ rfl ?_
  dsimp only
  refine bind_ok_shift _ (agents, bt) _ hagg ?_
  dsimp only
  obtain ⟨expl, hfmt⟩ := format_split_explanation_ok
    (agents.map (fun p => (p.1, AgentStats.mk p.2.net p.2.num_players))) bt
  refine bind_ok_shift _ expl _ hfmt ?_
  exact ⟨_, rfl⟩

/-- Witness for c8_amended_null_tolerated: a single row whose amount key
is present but null is tolerated and the dashboard completes. -/
theorem c8_witness :
    (∀ r ∈ ([⟨"p1", some "Player", "Gabe", Amt.null, false, false⟩] : List Row),
      r.week_amount ≠ Amt.absent) ∧
    ∃ res, computeDashboard
      ([⟨"p1", some "Player", "Gabe", Amt.null, false, false⟩] : List Row) none =
      Except.ok res :=
  ⟨by decide, c8_amended_null_tolerated _ (by decide)⟩

theorem bind_ok_eq {α β : Type} (a : α) (f : α → Except String β) :
    (Except.ok a >>= f) = f a := rfl

theorem bind_error_eq {α β : Type} (e : String) (f : α → Except String β) :
    ((Except.error e : Except String α) >>= f) = Except.error e := rfl

theorem readObj_append (h t : Heap) (a : ℕ) (ha : a < h.length) :
    readObj (h ++ t) a = readObj h a := by
  unfold readObj
  exact List.getD_append _ _ _ _ ha

theorem applyKevinBubbleH_extends (st : BubbleState) (h : Heap) (addrs : List ℕ)
    (st2 : BubbleState) (h2 : Heap) (addrs2 : List ℕ) (note : String)
    (hok : applyKevinBubbleH st h addrs = Except.ok (st2, h2, addrs2, note)) :
    ∃ t, h2 = h ++ t := by
  unfold applyKevinBubbleH at hok
  split at hok
  · simp only [Except.ok.injEq, Prod.mk.injEq] at hok
    exact ⟨[], by rw [← hok.2.1, List.append_nil]⟩
  · split at hok
    · simp only [Except.ok.injEq, Prod.mk.injEq] at hok
      exact ⟨[], by rw [← hok.2.1, List.append_nil]⟩
    · split at hok
      · simp only [Except.ok.injEq, Prod.mk.injEq] at hok
        exact ⟨[], by rw [← hok.2.1, List.append_nil]⟩
      · simp only [] at hok
        split at hok
        · exact Except.noConfusion hok
        · split at hok
          · simp only [allocObj, Except.ok.injEq, Prod.mk.injEq] at hok
            exact ⟨_, hok.2.1.symm⟩
          · simp only [allocObj, Except.ok.injEq, Prod.mk.injEq] at hok
            exact ⟨_, hok.2.1.symm⟩

theorem addRowToAgentsH_mem (agents : List (String × AgentAggH)) (ag : String)
    (pa : ℕ) (net : ℚ) (n : String) (af : AgentAggH)
    (hmem : (n, af) ∈ addRowToAgentsH agents ag pa net)
    (ad : ℕ) (had : ad ∈ af.players) :
    (∃ af0, (n, af0) ∈ agents ∧ ad ∈ af0.players) ∨ ad = pa := by
  unfold addRowToAgentsH at hmem
  split at hmem
  · obtain ⟨p, hp, hpe⟩ := List.mem_map.mp hmem
    by_cases hpa : p.1 = ag
    · simp only [if_pos hpa] at hpe
      injection hpe with he1 he2
      rw [← he2] at had
      have had2 : ad ∈ p.2.players ++ [pa] := had
      rcases List.mem_append.mp had2 with hl | hr
      · left
        refine ⟨p.2, ?_, hl⟩
        have hpn : p.1 = n := hpa.trans he1
        have hpq : (n, p.2) = p := Prod.ext hpn.symm rfl
        rw [hpq]
        exact hp
      · right
        simpa using hr
    · simp only [if_neg hpa] at hpe
      left
      exact ⟨af, hpe ▸ hp, had⟩
  · rcases List.mem_append.mp hmem with hin | hnew
    · left
      exact ⟨af, hin, had⟩
    · right
      simp only [List.mem_singleton] at hnew
      injection hnew with he1 he2
      rw [he2] at had
      simpa using had

theorem aggRowsH_frame (addrs : List ℕ) (h : Heap) (agents : List (String × AgentAggH))
    (bt : ℚ) (h2 : Heap) (agents2 : List (String × AgentAggH)) (bt2 : ℚ)
    (hok : aggRowsH addrs h agents bt = Except.ok (h2, agents2, bt2)) :
    (∃ t, h2 = h ++ t) ∧
    (∀ n af, (n, af) ∈ agents2 → ∀ ad ∈ af.players,
      (∃ af0, (n, af0) ∈ agents ∧ ad ∈ af0.players) ∨ h.length ≤ ad) := by
  induction addrs generalizing h agents bt h2 agents2 bt2 with
  | nil =>
    simp only [aggRowsH, Except.ok.injEq, Prod.mk.injEq] at hok
    obtain ⟨e1, e2, e3⟩ := hok
    constructor
    · exact ⟨[], by rw [← e1, List.append_nil]⟩
    · intro n af hmem ad had
      rw [← e2] at hmem
      exact Or.inl ⟨af, hmem, had⟩
  | cons a rest ih =>
    rcases hwk : rowWeekAmtH (readObj h a) with e | q
    · simp only [aggRowsH, hwk, bind_error_eq] at hok
      exact Except.noConfusion hok
    · simp only [aggRowsH, hwk, bind_ok_eq, allocObj] at hok
      obtain ⟨⟨t, hext⟩, hfresh⟩ := ih _ _ _ _ _ _ hok
      constructor
      · exact ⟨_, by rw [hext, List.append_assoc]⟩
      · intro n af hmem ad had
        rcases hfresh n af hmem ad had with ⟨af0, haf0, had0⟩ | hge
        · rcases addRowToAgentsH_mem agents _ _ _ n af0 haf0 ad had0 with ⟨af1, h1, h2p⟩ | hpa
          · exact Or.inl ⟨af1, h1, h2p⟩
          · exact Or.inr (le_of_eq hpa.symm)
        · refine Or.inr ?_
          simp only [List.length_append, List.length_singleton] at hge
          omega

/-- Claim C10.  The dashboard computation never mutates its input: in the
heap model (dicts are addressed objects, allocation appends), a successful
compute_dashboard run only extends the heap, so the input row list and
every row dict in it are unchanged (every pre-existing address still
dereferences to the same dict), and every annotated member record held by
the result lives at a fresh address (it is a fresh copy, aliasing no input
dict). -/
theorem c10_no_input_mutation (h : Heap) (addrs : List ℕ) (conn : Option BubbleState)
    (hout : Heap) (conn2 : Option BubbleState) (res : DashResultH)
    (hok : computeDashboardH h addrs conn = Except.ok (hout, conn2, res)) :
    (∃ t, hout = h ++ t) ∧
    (∀ a, a < h.length → readObj hout a = readObj h a) ∧
    (∀ p ∈ res.agents, ∀ ad ∈ p.2.players, h.length ≤ ad) := by
  cases conn with
  | none =>
    rcases hagg : aggRowsH addrs h [] 0 with e | ⟨h3, agents, bt⟩
    · unfold computeDashboardH at hok
      simp only [hagg, bind_ok_eq, bind_error_eq] at hok
      exact Except.noConfusion hok
    · unfold computeDashboardH at hok
      simp only [hagg, bind_ok_eq] at hok
      rcases hfmt : format_split_explanation
          (agents.map (fun p => (p.1, AgentStats.mk p.2.net p.2.num_players)))
          (calculate_split_percentages
            (agents.map (fun p => (p.1, AgentStats.mk p.2.net p.2.num_players))) bt) bt
        with e | expl
      · simp only [hfmt, bind_error_eq] at hok
        exact Except.noConfusion hok
      · simp only [hfmt, bind_ok_eq, Except.ok.injEq, Prod.mk.injEq] at hok
        obtain ⟨e1, e2, e3⟩ := hok
        obtain ⟨⟨t, hext⟩, hfresh⟩ := aggRowsH_frame addrs h [] 0 h3 agents bt hagg
        refine ⟨⟨t, by rw [← e1, hext]⟩, ?_, ?_⟩
        · intro a ha
          rw [← e1, hext]
          exact readObj_append h t a ha
        · intro p hp ad had
          rw [← e3] at hp
          obtain ⟨⟨n, af⟩, haf, hfe⟩ := List.mem_map.mp hp
          rw [← hfe] at had
          have had2 : ad ∈ sortPlayersH h3 af.players := had
          have had3 : ad ∈ af.players :=
            (List.perm_insertionSort _ _).mem_iff.mp had2
          rcases hfresh n af haf ad had3 with ⟨af0, haf0, -⟩ | hge
          · exact absurd haf0 (List.not_mem_nil _)
          · exact hge
  | some st =>
    rcases hkev : applyKevinBubbleH st h addrs with e | ⟨st2, h2, addrs2, note⟩
    · unfold computeDashboardH at hok
      simp only [hkev, bind_error_eq, bind_ok_eq] at hok
      exact Except.noConfusion hok
    · obtain ⟨t1, hext1⟩ := applyKevinBubbleH_extends st h addrs st2 h2 addrs2 note hkev
      rcases hagg : aggRowsH addrs2 h2 [] 0 with e | ⟨h3, agents, bt⟩
      · unfold computeDashboardH at hok
        simp only [hkev, hagg, bind_ok_eq, bind_error_eq] at hok
        exact Except.noConfusion hok
      · unfold computeDashboardH at hok
        simp only [hkev, hagg, bind_ok_eq] at hok
        rcases hfmt : format_split_explanation
            (agents.map (fun p => (p.1, AgentStats.mk p.2.net p.2.num_players)))
            (calculate_split_percentages
              (agents.map (fun p => (p.1, AgentStats.mk p.2.net p.2.num_players))) bt) bt
          with e | expl
        · simp only [hfmt, bind_error_eq] at hok
          exact Except.noConfusion hok
        · simp only [hfmt, bind_ok_eq, Except.ok.injEq, Prod.mk.injEq] at hok
          obtain ⟨e1, e2, e3⟩ := hok
          obtain ⟨⟨t2, hext2⟩, hfresh⟩ := aggRowsH_frame addrs2 h2 [] 0 h3 agents bt hagg
          have hlen12 : h.length ≤ h2.length := by
            rw [hext1]
            simp
          refine ⟨⟨t1 ++ t2, by rw [← e1, hext2, hext1, List.append_assoc]⟩, ?_, ?_⟩
          · intro a ha
            have ha2 : a < h2.length := lt_of_lt_of_le ha hlen12
            rw [← e1, hext2, readObj_append h2 t2 a ha2, hext1, readObj_append h t1 a ha]
          · intro p hp ad had
            rw [← e3] at hp
            obtain ⟨⟨n, af⟩, haf, hfe⟩ := List.mem_map.mp hp
            rw [← hfe] at had
            have had2 : ad ∈ sortPlayersH h3 af.players := had
            have had3 : ad ∈ af.players :=
              (List.perm_insertionSort _ _).mem_iff.mp had2
            rcases hfresh n af haf ad had3 with ⟨af0, haf0, -⟩ | hge
            · exact absurd haf0 (List.not_mem_nil _)
            · exact le_trans hlen12 hge

set_option maxRecDepth 100000 in
/-- Witness for c10_no_input_mutation at a one-row input: the run
succeeds, the input dict at address 0 is untouched (the output heap
extends the input heap), and the single annotated member record lives at
the fresh address 1. -/
theorem c10_witness :
    computeDashboardH [⟨"p1", some "A", "Gabe", Amt.val (-50), none, none, none⟩] [0] none =
      Except.ok ([⟨"p1", some "A", "Gabe", Amt.val (-50), none, none, none⟩,
                  ⟨"p1", some "A", "Gabe", Amt.val (-50), some 50, some "Request", some 50⟩],
        none,
        ⟨[("Gabe", ⟨[1], 50, 1, 50, 1, 0⟩)], 50, 50, [],
         ⟨"Standard splits this week", "", [("Gabe", 1)]⟩⟩) ∧
    ((∃ t, ([⟨"p1", some "A", "Gabe", Amt.val (-50), none, none, none⟩,
             ⟨"p1", some "A", "Gabe", Amt.val (-50), some 50, some "Request", some 50⟩] : Heap) =
        [⟨"p1", some "A", "Gabe", Amt.val (-50), none, none, none⟩] ++ t) ∧
     (∀ a, a < ([⟨"p1", some "A", "Gabe", Amt.val (-50), none, none, none⟩] : Heap).length →
        readObj [⟨"p1", some "A", "Gabe", Amt.val (-50), none, none, none⟩,
                 ⟨"p1", some "A", "Gabe", Amt.val (-50), some 50, some "Request", some 50⟩] a =
        readObj [⟨"p1", some "A", "Gabe", Amt.val (-50), none, none, none⟩] a) ∧
     (∀ p ∈ (⟨[("Gabe", ⟨[1], 50, 1, 50, 1, 0⟩)], 50, 50, [],
         ⟨"Standard splits this week", "", [("Gabe", 1)]⟩⟩ : DashResultH).agents,
       ∀ ad ∈ p.2.players,
        ([⟨"p1", some "A", "Gabe", Amt.val (-50), none, none, none⟩] : Heap).length ≤ ad)) := by
  have hok : computeDashboardH
      [⟨"p1", some "A", "Gabe", Amt.val (-50), none, none, none⟩] [0] none =
      Except.ok ([⟨"p1", some "A", "Gabe", Amt.val (-50), none, none, none⟩,
                  ⟨"p1", some "A", "Gabe", Amt.val (-50), some 50, some "Request", some 50⟩],
        none,
        ⟨[("Gabe", ⟨[1], 50, 1, 50, 1, 0⟩)], 50, 50, [],
         ⟨"Standard splits this week", "", [("Gabe", 1)]⟩⟩) := by
    with_unfolding_all decide
  exact ⟨hok, c10_no_input_mutation _ _ _ _ _ _ hok⟩
